import Mathlib

/-!
Shallow embedding of the path projection and motion integration engine of
the sim-v5 repository (src/packages/app/src/use-path.ts, the `move` function
of src/packages/app/src/app.tsx, src/packages/app/src/math.ts,
src/packages/app/src/const.ts, and the Vec2 class of src/unnamed/part_005).

JavaScript numbers are modelled by exact rationals (ℚ): every arithmetic
operation the engine performs (addition, subtraction, multiplication,
division, floor, round, sign, the `%` remainder) is translated exactly.
`Math.sqrt`, whose exact value is irrational in general, is modelled by
`Rat.sqrt`; the engine only ever compares a square root against `0`, and
`Rat.sqrt` is exact on that comparison (it is zero exactly on inputs whose
numerator is nonpositive).  `Number.POSITIVE_INFINITY` (used only for the
time-to-cross of a zero velocity axis) is modelled by `Option ℚ` with
`none` standing for the infinite value.  A thrown `invariant` (from
tiny-invariant) is modelled by an explicit crash/`none` result.

NaN and the infinities of IEEE arithmetic cannot arise inside the engine
under this model; the separate `JsNum` development below models the IEEE
value classes (finite / +inf / -inf / NaN) for the claims about the Vec2
constructor of src/unnamed/part_005.
-/

namespace Sim

/-- JavaScript `Math.trunc`-style truncation toward zero (the integer `q`
of the ECMAScript remainder operation). -/
def jsTrunc (q : ℚ) : ℤ := if 0 ≤ q then ⌊q⌋ else -⌊-q⌋

/-- The ECMAScript `%` operator: `n % m = n - m * trunc(n / m)`. -/
def jsRem (n m : ℚ) : ℚ := n - m * (jsTrunc (n / m) : ℚ)

/-- Source: `mod` in src/packages/app/src/math.ts:
`((n % m) + m) % m`. -/
def mod (n m : ℚ) : ℚ := jsRem (jsRem n m + m) m

/-- JavaScript `Math.sign`. -/
def jsSign (q : ℚ) : ℚ := if 0 < q then 1 else if q < 0 then -1 else 0

/-- JavaScript `Math.round` (rounds half toward positive infinity). -/
def jsRound (q : ℚ) : ℤ := ⌊q + 1 / 2⌋

/-- JavaScript `Number.EPSILON` = 2⁻⁵². -/
def jsEpsilon : ℚ := 1 / 2 ^ 52

/-- Source: `PATH_TIME` in src/packages/app/src/const.ts (0.5 seconds). -/
def PATH_TIME : ℚ := 1 / 2

/-- Source: `ALLOW_MOVE` in src/packages/app/src/const.ts. -/
def ALLOW_MOVE : Bool := true

/-- The Vec2 value type of src/unnamed/part_005, restricted to the exact
rational model used by the engine (no NaN/infinity can arise here; the
IEEE value classes are modelled separately by `JsNum` below). -/
structure Vec2 where
  x : ℚ
  y : ℚ
deriving DecidableEq, Repr

/-- Source: `Vec2.add`. -/
def Vec2.add (a b : Vec2) : Vec2 := ⟨a.x + b.x, a.y + b.y⟩

/-- Source: `Vec2.sub` (vector case). -/
def Vec2.sub (a b : Vec2) : Vec2 := ⟨a.x - b.x, a.y - b.y⟩

/-- Source: `Vec2.mul` (scalar). -/
def Vec2.mul (a : Vec2) (s : ℚ) : Vec2 := ⟨a.x * s, a.y * s⟩

/-- Source: `Vec2.len` = `Math.sqrt(x ** 2 + y ** 2)`; `Rat.sqrt` models
`Math.sqrt` (exact on the only comparison the engine makes, against 0). -/
def Vec2.len (a : Vec2) : ℚ := Rat.sqrt (a.x ^ 2 + a.y ^ 2)

/-- A Vec2 both of whose components are exact integers. -/
def Vec2.isIntegral (a : Vec2) : Prop := Int.fract a.x = 0 ∧ Int.fract a.y = 0

instance (a : Vec2) : Decidable a.isIntegral := by
  unfold Vec2.isIntegral; infer_instance

/-- Source: `CellType` in src/packages/app/src/types.ts. -/
inductive CellType where
  | Stone : CellType
  | Grass : CellType
deriving DecidableEq, Repr

/-- Source: `Cell` in src/packages/app/src/types.ts. -/
structure Cell where
  type : CellType
  color : String
deriving DecidableEq, Repr

/-- Source: `World` in src/packages/app/src/types.ts.  The source stores
cells in a record keyed by the string `"x.y"`; all keys ever created are
integer pairs, so the mapping is modelled by a function on ℤ × ℤ. -/
structure World where
  cells : ℤ → ℤ → Option Cell

/-- Cell lookup `world.cells[toCellId(point)]`.  A point with a
non-integral component produces a string key that never occurs in the
record, hence `undefined` (`none`). -/
def lookupCell (w : World) (p : Vec2) : Option Cell :=
  if Int.fract p.x = 0 ∧ Int.fract p.y = 0 then w.cells ⌊p.x⌋ ⌊p.y⌋ else none

/-- Source: `isCellBlocked` in src/packages/app/src/use-path.ts (absent
cells and Stone cells are blocked). -/
def isCellBlocked : Option Cell → Bool
  | none => true
  | some c => match c.type with
    | CellType.Stone => true
    | CellType.Grass => false

/-- Per-axis occupied-cell rule of use-path.ts lines 44-47:
`stepX < 0 && x % 1 === 0 ? x - 1 : Math.floor(x)`. -/
def classifyAxis (step x : ℚ) : ℚ := if step < 0 ∧ jsRem x 1 = 0 then x - 1 else (⌊x⌋ : ℚ)

/-- The occupied cell computed at the top of each projection iteration. -/
def occupiedCell (velocity : Vec2) (x y : ℚ) : Vec2 :=
  ⟨classifyAxis (jsSign velocity.x) x, classifyAxis (jsSign velocity.y) y⟩

/-- One motion segment pushed by use-path.ts (`{a, b, t, v, point, blockedBy}`). -/
structure Segment where
  a : Vec2
  b : Vec2
  v : Vec2
  t : ℚ
  point : Vec2
  blockedBy : Option Vec2
deriving DecidableEq, Repr

/-- Mutable state of the projection `while` loop. -/
structure PLoopState where
  x : ℚ
  y : ℚ
  u : Vec2
  time : ℚ
  path : List Segment
deriving DecidableEq, Repr

/-- The two axes tried by the corner-resolution `for` loop. -/
inductive Axis where
  | x : Axis
  | y : Axis
deriving DecidableEq, Repr

/-- Probe for one axis of the corner loop (use-path.ts lines 73-102);
also the body of the two single-edge cases, which perform the same
lookup and velocity projection.  Returns the reassigned point and the
axis-projected velocity when the adjacent cell is open. -/
def tryAxis (w : World) (stepX stepY : ℚ) (point velocity : Vec2) :
    Axis → Option (Vec2 × Vec2)
  | Axis.x =>
    let adjacentPoint : Vec2 := ⟨point.x, point.y - stepY⟩
    if isCellBlocked (lookupCell w adjacentPoint) then none
    else some (adjacentPoint, ⟨velocity.x, 0⟩)
  | Axis.y =>
    let adjacentPoint : Vec2 := ⟨point.x - stepX, point.y⟩
    if isCellBlocked (lookupCell w adjacentPoint) then none
    else some (adjacentPoint, ⟨0, velocity.y⟩)

/-- Result of the blocking-resolution block (use-path.ts lines 57-141):
either the fatal strict-interior `invariant(false)`, a collapse of the
velocity to `null` (wedged), or a velocity/point/blockedBy to continue
with. -/
inductive Resolved where
  | crash : Resolved
  | wedged (blockedBy : Option Vec2) : Resolved
  | go (v : Vec2) (point : Vec2) (blockedBy : Option Vec2) : Resolved
deriving DecidableEq, Repr

/-- Blocking resolution for the classified cell `point0` at continuous
position `(x, y)` (use-path.ts lines 53-141). -/
def resolveBlocked (w : World) (velocity : Vec2) (stepX stepY x y : ℚ)
    (point0 : Vec2) : Resolved :=
  if ¬ isCellBlocked (lookupCell w point0) then Resolved.go velocity point0 none
  else
    let blockedBy := some point0
    if jsRem x 1 = 0 ∧ jsRem y 1 = 0 then
      -- corner: try the axis of larger velocity magnitude first
      let first := if |velocity.x| > |velocity.y| then Axis.x else Axis.y
      let second := if |velocity.x| > |velocity.y| then Axis.y else Axis.x
      match tryAxis w stepX stepY point0 velocity first with
      | some (p, v) => Resolved.go v p blockedBy
      | none =>
        match tryAxis w stepX stepY point0 velocity second with
        | some (p, v) => Resolved.go v p blockedBy
        | none => Resolved.wedged blockedBy
    else if jsRem x 1 = 0 then
      -- on the y grid line: slide along y (same probe as the corner y axis)
      match tryAxis w stepX stepY point0 velocity Axis.y with
      | some (p, v) => Resolved.go v p blockedBy
      | none => Resolved.wedged blockedBy
    else if jsRem y 1 = 0 then
      -- on the x grid line: slide along x (same probe as the corner x axis)
      match tryAxis w stepX stepY point0 velocity Axis.x with
      | some (p, v) => Resolved.go v p blockedBy
      | none => Resolved.wedged blockedBy
    else Resolved.crash

/-- Choice `t = tMaxX < tMaxY ? tMaxX : tMaxY` with `none` as
`Number.POSITIVE_INFINITY`. -/
def pickT : Option ℚ → Option ℚ → Option ℚ
  | some a, some b => some (if a < b then a else b)
  | some a, none => some a
  | none, b => b

/-- Truth of `t > 0` with `t` possibly infinite (`Infinity > 0` holds). -/
def optPos : Option ℚ → Prop
  | none => True
  | some q => 0 < q

instance (o : Option ℚ) : Decidable (optPos o) := by
  cases o <;> · unfold optPos; infer_instance

/-- Clipping of the step duration to the PATH_TIME budget
(use-path.ts lines 161-166); returns the clipped `t` and the new `time`.
An infinite `t` always overshoots the budget. -/
def clipT (t0 : Option ℚ) (time : ℚ) : ℚ × ℚ :=
  match t0 with
  | none => (PATH_TIME - time, PATH_TIME)
  | some t => if time + t > PATH_TIME then (PATH_TIME - time, PATH_TIME) else (t, time + t)

/-- Numerical-hygiene snap (use-path.ts lines 179-191): a coordinate
within `Number.EPSILON` of its nearest integer is replaced by it. -/
def snap (q : ℚ) : ℚ := if |q - (jsRound q : ℚ)| ≤ jsEpsilon then (jsRound q : ℚ) else q

/-- Result of one iteration of the projection `while` loop: continue with
a new state, `break`, or throw (a failed `invariant`). -/
inductive StepOut where
  | cont (s : PLoopState) : StepOut
  | brk : StepOut
  | crash : StepOut
deriving DecidableEq, Repr

/-- One iteration of the projection loop body (use-path.ts lines 43-203). -/
def pathStep (w : World) (velocity : Vec2) (s : PLoopState) : StepOut :=
  let stepX := jsSign velocity.x
  let stepY := jsSign velocity.y
  let point0 := occupiedCell velocity s.x s.y
  -- invariant(point.x % 1 === 0); invariant(point.y % 1 === 0)
  if ¬ (jsRem point0.x 1 = 0 ∧ jsRem point0.y 1 = 0) then StepOut.crash
  else
    match resolveBlocked w velocity stepX stepY s.x s.y point0 with
    | Resolved.crash => StepOut.crash
    | Resolved.wedged _ => StepOut.brk
    | Resolved.go v point blockedBy =>
      if v.len = 0 then StepOut.brk
      else
        let tMaxX : Option ℚ :=
          if v.x = 0 then none else some |(stepX - mod s.x stepX) / v.x|
        let tMaxY : Option ℚ :=
          if v.y = 0 then none else some |(stepY - mod s.y stepY) / v.y|
        let t0 := pickT tMaxX tMaxY
        -- invariant(t > 0)
        if ¬ optPos t0 then StepOut.crash
        else
          let tc := clipT t0 s.time
          -- invariant(t >= 0)
          if ¬ 0 ≤ tc.1 then StepOut.crash
          else
            let du := v.mul tc.1
            let a := s.u
            let bx := snap (s.u.x + du.x)
            let x' := snap (s.x + du.x)
            let by' := snap (s.u.y + du.y)
            let y' := snap (s.y + du.y)
            let b : Vec2 := ⟨bx, by'⟩
            StepOut.cont
              ⟨x', y', b, tc.2,
               s.path ++ [⟨a, b, v, tc.1, point, blockedBy⟩]⟩

/-- How a projection run ended: the clock reached PATH_TIME, the walk
broke early (wedged or zero velocity), or an invariant threw. -/
inductive Outcome where
  | completed : Outcome
  | blocked : Outcome
  | crashed : Outcome
deriving DecidableEq, Repr

/-- The projection `while` loop, driven by explicit fuel (`none` means the
fuel ran out before the loop finished; the loop itself is proved to
terminate within a computable fuel bound below). -/
def pathLoop (w : World) (velocity : Vec2) : ℕ → PLoopState → Option (PLoopState × Outcome)
  | 0, _ => none
  | n + 1, s =>
    if s.time = PATH_TIME then some (s, Outcome.completed)
    else
      match pathStep w velocity s with
      | StepOut.crash => some (s, Outcome.crashed)
      | StepOut.brk => some (s, Outcome.blocked)
      | StepOut.cont s' => pathLoop w velocity n s'

/-- Initial loop state for a projection from `position`. -/
def initState (position : Vec2) : PLoopState :=
  ⟨position.x, position.y, position, 0, []⟩

/-- The projection with its outcome: `usePath` of use-path.ts.  A zero
velocity returns the empty path before the loop (tagged `blocked`: the
walk never starts because the velocity is zero). -/
def usePathR (fuel : ℕ) (w : World) (velocity position : Vec2) :
    Option (PLoopState × Outcome) :=
  if velocity.len = 0 then some (initState position, Outcome.blocked)
  else pathLoop w velocity fuel (initState position)

/-- The value `usePath` actually returns to its caller: the path, or
`none` when an invariant threw (the React hook propagates the throw). -/
def usePath (fuel : ℕ) (w : World) (velocity position : Vec2) : Option (List Segment) :=
  match usePathR fuel w velocity position with
  | none => none
  | some (_, Outcome.crashed) => none
  | some (s, _) => some s.path

/-- Total duration of a path (sum of the segment durations). -/
def sumT (l : List Segment) : ℚ := (l.map Segment.t).sum

/-- Source: `Player` (a position and an occupied cell). -/
structure PlayerState where
  position : Vec2
  point : Vec2
deriving DecidableEq, Repr

/-- The `for` loop of `move` in src/packages/app/src/app.tsx
(lines 53-66), which consumes `elapsed` against the path. -/
def moveLoop : List Segment → ℚ → Vec2 → Vec2 → Vec2 × Vec2
  | [], _, pos, pt => (pos, pt)
  | part :: rest, elapsed, pos, pt =>
    if elapsed ≤ 0 then (pos, pt)
    else if elapsed < part.t then (part.a.add (part.v.mul elapsed), part.point)
    else moveLoop rest (elapsed - part.t) part.b part.point

/-- Source: `move` in src/packages/app/src/app.tsx (lines 39-69); the
`allow` parameter is the `ALLOW_MOVE` configuration constant.  Returns
`none` when `invariant(elapsed > 0)` throws. -/
def movePlayer (allow : Bool) (player : PlayerState) (path : List Segment)
    (elapsed : ℚ) : Option PlayerState :=
  if ¬ allow ∨ path = [] ∨ elapsed = 0 then some player
  else if elapsed ≤ 0 then none
  else
    let r := moveLoop path elapsed player.position player.point
    some ⟨r.1, r.2⟩

end Sim

namespace Sim

theorem jsTrunc_of_nonneg {q : ℚ} (h : 0 ≤ q) : jsTrunc q = ⌊q⌋ := if_pos h

theorem jsTrunc_of_neg {q : ℚ} (h : q < 0) : jsTrunc q = -⌊-q⌋ := if_neg (not_le.mpr h)

theorem jsTrunc_neg (q : ℚ) : jsTrunc (-q) = -jsTrunc q := by
  rcases lt_trichotomy q 0 with h | h | h
  · rw [jsTrunc_of_nonneg (by linarith), jsTrunc_of_neg h, neg_neg]
  · simp [h, jsTrunc]
  · rw [jsTrunc_of_neg (by linarith), jsTrunc_of_nonneg (le_of_lt h), neg_neg]

theorem jsRem_one (x : ℚ) : jsRem x 1 = x - (jsTrunc x : ℚ) := by
  simp [jsRem]

theorem jsRem_one_eq (x : ℚ) :
    jsRem x 1 = if 0 ≤ x then Int.fract x else -Int.fract (-x) := by
  rw [jsRem_one]
  split
  · rw [jsTrunc_of_nonneg (by assumption), Int.fract]
  · rw [jsTrunc_of_neg (by linarith [not_le.mp (by assumption : ¬ 0 ≤ x)]), Int.fract]
    push_cast
    ring

theorem jsRem_one_eq_zero_iff (x : ℚ) : jsRem x 1 = 0 ↔ Int.fract x = 0 := by
  rw [jsRem_one_eq]
  split
  · exact Iff.rfl
  · rw [neg_eq_zero, Int.fract_neg_eq_zero]

theorem fract_eq_zero_iff_floor (x : ℚ) : Int.fract x = 0 ↔ x = (⌊x⌋ : ℚ) := by
  rw [Int.fract, sub_eq_zero]

theorem jsRem_one_mem_Ioo (x : ℚ) : -1 < jsRem x 1 ∧ jsRem x 1 < 1 := by
  rw [jsRem_one_eq]
  split
  · constructor
    · linarith [Int.fract_nonneg x]
    · exact Int.fract_lt_one x
  · constructor
    · simpa using Int.fract_lt_one (-x)
    · linarith [Int.fract_nonneg (-x)]

theorem jsRem_negone (n : ℚ) : jsRem n (-1) = jsRem n 1 := by
  simp only [jsRem, div_neg, div_one, jsTrunc_neg]
  push_cast
  ring

theorem jsMod_one (x : ℚ) : mod x 1 = Int.fract x := by
  unfold mod
  rcases le_or_lt 0 x with hx | hx
  · rw [jsRem_one_eq x, if_pos hx, jsRem_one_eq,
      if_pos (by linarith [Int.fract_nonneg x])]
    rw [Int.fract_add_one, Int.fract_fract]
  · rw [jsRem_one_eq x, if_neg (not_le.mpr hx)]
    by_cases hz : Int.fract (-x) = 0
    · rw [hz]
      have hzx : Int.fract x = 0 := Int.fract_neg_eq_zero.mp hz
      norm_num [jsRem_one_eq, hzx, Int.fract_one]
    · have hxz : Int.fract x ≠ 0 := fun h => hz (Int.fract_neg_eq_zero.mpr h)
      have hfx : Int.fract (-x) = 1 - Int.fract x := Int.fract_neg hxz
      rw [hfx]
      have h1 : -(1 - Int.fract x) + 1 = Int.fract x := by ring
      rw [h1, jsRem_one_eq, if_pos (Int.fract_nonneg x), Int.fract_fract]

theorem jsMod_negone (x : ℚ) :
    mod x (-1) = if Int.fract x = 0 then 0 else Int.fract x - 1 := by
  unfold mod
  rw [jsRem_negone x, jsRem_negone]
  by_cases hz : Int.fract x = 0
  · have hr : jsRem x 1 = 0 := (jsRem_one_eq_zero_iff x).mpr hz
    rw [hr, if_pos hz]
    norm_num [jsRem_one_eq, Int.fract_one]
  · rw [if_neg hz]
    rcases le_or_lt 0 x with hx | hx
    · have hr : jsRem x 1 = Int.fract x := by rw [jsRem_one_eq, if_pos hx]
      have hf0 : 0 < Int.fract x := lt_of_le_of_ne (Int.fract_nonneg x) (Ne.symm hz)
      have hf1 : Int.fract x < 1 := Int.fract_lt_one x
      rw [hr, jsRem_one_eq, if_neg (by linarith)]
      have : -(Int.fract x + -1) = 1 - Int.fract x := by ring
      rw [this]
      have : Int.fract (1 - Int.fract x) = 1 - Int.fract x :=
        Int.fract_eq_self.mpr ⟨by linarith, by linarith⟩
      rw [this]
      ring
    · have hfx : Int.fract (-x) = 1 - Int.fract x := Int.fract_neg hz
      have hr : jsRem x 1 = Int.fract x - 1 := by
        rw [jsRem_one_eq, if_neg (not_le.mpr hx), hfx]; ring
      have hf0 : 0 < Int.fract x := lt_of_le_of_ne (Int.fract_nonneg x) (Ne.symm hz)
      have hf1 : Int.fract x < 1 := Int.fract_lt_one x
      rw [hr, jsRem_one_eq, if_neg (by linarith)]
      have h2 : -(Int.fract x - 1 + -1) = 2 - Int.fract x := by ring
      rw [h2]
      have h3 : Int.fract (2 - Int.fract x) = 1 - Int.fract x := by
        have : (2 : ℚ) - Int.fract x = (1 - Int.fract x) + (1 : ℤ) := by push_cast; ring
        rw [this, Int.fract_add_int]
        exact Int.fract_eq_self.mpr ⟨by linarith, by linarith⟩
      rw [h3]
      ring

end Sim

namespace Sim

/-- Distance (in grid units) from coordinate `x` to the next grid line in
the direction of `step`; this is the numerator `|step - mod(x, step)|` of
the time-to-cross computation in use-path.ts lines 147-155. -/
def axisD (x step : ℚ) : ℚ := |step - mod x step|

theorem axisD_one (x : ℚ) : axisD x 1 = 1 - Int.fract x := by
  rw [axisD, jsMod_one, abs_of_pos]
  linarith [Int.fract_lt_one x]

theorem axisD_negone (x : ℚ) :
    axisD x (-1) = if Int.fract x = 0 then 1 else Int.fract x := by
  rw [axisD, jsMod_negone]
  split
  · norm_num
  · rename_i hz
    have h0 : 0 < Int.fract x := lt_of_le_of_ne (Int.fract_nonneg x) (Ne.symm hz)
    rw [abs_of_neg (by linarith)]
    ring

theorem axisD_pos {step : ℚ} (hs : step = 1 ∨ step = -1) (x : ℚ) : 0 < axisD x step := by
  rcases hs with h | h <;> subst h
  · rw [axisD_one]; linarith [Int.fract_lt_one x]
  · rw [axisD_negone]
    split
    · norm_num
    · exact lt_of_le_of_ne (Int.fract_nonneg x) (Ne.symm (by assumption))

theorem axisD_le_one {step : ℚ} (hs : step = 1 ∨ step = -1) (x : ℚ) : axisD x step ≤ 1 := by
  rcases hs with h | h <;> subst h
  · rw [axisD_one]; linarith [Int.fract_nonneg x]
  · rw [axisD_negone]
    split
    · exact le_refl 1
    · exact le_of_lt (Int.fract_lt_one x)

theorem axisD_of_int {step : ℚ} (hs : step = 1 ∨ step = -1) {x : ℚ}
    (hx : Int.fract x = 0) : axisD x step = 1 := by
  rcases hs with h | h <;> subst h
  · rw [axisD_one, hx]; ring
  · rw [axisD_negone, if_pos hx]

theorem axis_land {step : ℚ} (hs : step = 1 ∨ step = -1) (x : ℚ) :
    Int.fract (x + step * axisD x step) = 0 := by
  rcases hs with h | h <;> subst h
  · rw [axisD_one]
    have hx : x + 1 * (1 - Int.fract x) = ((⌊x⌋ + 1 : ℤ) : ℚ) := by
      rw [Int.fract]; push_cast; ring
    rw [hx, Int.fract_intCast]
  · rw [axisD_negone]
    by_cases hz : Int.fract x = 0
    · rw [if_pos hz]
      have hx : x + -1 * 1 = x - 1 := by ring
      rw [hx, Int.fract_sub_one, hz]
    · rw [if_neg hz]
      have hx : x + -1 * Int.fract x = ((⌊x⌋ : ℤ) : ℚ) := by
        rw [Int.fract]; ring
      rw [hx, Int.fract_intCast]

theorem axis_partial {step : ℚ} (hs : step = 1 ∨ step = -1) {x m : ℚ}
    (hm0 : 0 ≤ m) (hm : m < axisD x step) :
    axisD (x + step * m) step = axisD x step - m := by
  rcases hs with h | h <;> subst h
  · rw [axisD_one] at hm ⊢
    have h1 : x + 1 * m = ((⌊x⌋ : ℤ) : ℚ) + (Int.fract x + m) := by
      rw [Int.fract]; ring
    rw [axisD_one, h1, Int.fract_int_add,
      Int.fract_eq_self.mpr ⟨by linarith [Int.fract_nonneg x], by linarith⟩]
    ring
  · by_cases hz : Int.fract x = 0
    · have hm' : m < 1 := by rwa [axisD_negone, if_pos hz] at hm
      by_cases hm0' : m = 0
      · subst hm0'
        have hx0 : x + -1 * 0 = x := by ring
        rw [hx0]
        ring
      · have hmpos : 0 < m := lt_of_le_of_ne hm0 (Ne.symm hm0')
        have hfm : Int.fract m = m := Int.fract_eq_self.mpr ⟨hm0, hm'⟩
        have hxf : x = ((⌊x⌋ : ℤ) : ℚ) := (fract_eq_zero_iff_floor x).mp hz
        have harg : x + -1 * m = ((⌊x⌋ : ℤ) : ℚ) + -m := by rw [← hxf]; ring
        have h2 : Int.fract (x + -1 * m) = 1 - m := by
          rw [harg, Int.fract_int_add, Int.fract_neg (by rw [hfm]; exact hm0'), hfm]
        rw [axisD_negone, axisD_negone, h2, if_neg (by intro h; linarith),
          if_pos hz]
    · have hf0 : 0 < Int.fract x := lt_of_le_of_ne (Int.fract_nonneg x) (Ne.symm hz)
      have hm' : m < Int.fract x := by rwa [axisD_negone, if_neg hz] at hm
      have harg : x + -1 * m = ((⌊x⌋ : ℤ) : ℚ) + (Int.fract x - m) := by
        rw [Int.fract]; ring
      have h2 : Int.fract (x + -1 * m) = Int.fract x - m := by
        rw [harg, Int.fract_int_add]
        exact Int.fract_eq_self.mpr ⟨by linarith, by linarith [Int.fract_lt_one x]⟩
      rw [axisD_negone, axisD_negone, h2, if_neg (by intro h; linarith),
        if_neg hz]

theorem jsSign_cases {v : ℚ} (hv : v ≠ 0) : jsSign v = 1 ∨ jsSign v = -1 := by
  rcases lt_trichotomy 0 v with h | h | h
  · left; simp [jsSign, h]
  · exact absurd h.symm hv
  · right; simp [jsSign, not_lt.mpr (le_of_lt h), h]

theorem jsSign_mul_abs {v : ℚ} (hv : v ≠ 0) (t : ℚ) : v * t = jsSign v * (|v| * t) := by
  unfold jsSign
  rcases lt_trichotomy 0 v with h | h | h
  · rw [abs_of_pos h, if_pos h]; ring
  · exact absurd h.symm hv
  · rw [abs_of_neg h, if_neg (not_lt.mpr (le_of_lt h)), if_pos h]; ring

theorem jsSign_neg_iff (v : ℚ) : jsSign v < 0 ↔ v < 0 := by
  unfold jsSign
  rcases lt_trichotomy 0 v with h | h | h
  · simp [h, not_lt.mpr (le_of_lt h), lt_asymm h]
  · simp [← h]
  · simp [h, not_lt.mpr (le_of_lt h), lt_asymm h]

theorem snap_of_int {q : ℚ} (hq : Int.fract q = 0) : snap q = q := by
  have hq' : q = ((⌊q⌋ : ℤ) : ℚ) := (fract_eq_zero_iff_floor q).mp hq
  have hr : jsRound q = ⌊q⌋ := by
    rw [jsRound]
    conv_lhs => rw [hq']
    rw [Int.floor_int_add]
    norm_num
  unfold snap
  rw [hr, ← hq']
  simp

theorem snap_fract_or (q : ℚ) : snap q = q ∨ Int.fract (snap q) = 0 := by
  unfold snap
  split
  · right; exact Int.fract_intCast _
  · left; rfl

theorem axisD_snap_ge {step : ℚ} (hs : step = 1 ∨ step = -1) (q : ℚ) :
    axisD q step ≤ axisD (snap q) step := by
  rcases snap_fract_or q with h | h
  · rw [h]
  · rw [axisD_of_int hs h]
    exact axisD_le_one hs q

theorem rat_sqrt_pos {q : ℚ} (hq : 0 < q) : 0 < Rat.sqrt q := by
  have hnum : 0 < q.num := Rat.num_pos.mpr hq
  have h1 : 0 < Int.sqrt q.num := by
    unfold Int.sqrt
    have htn : 0 < q.num.toNat := by omega
    exact_mod_cast Nat.sqrt_pos.mpr htn
  have h2 : Nat.sqrt q.den ≠ 0 := (Nat.sqrt_pos.mpr q.pos).ne'
  rcases lt_or_eq_of_le (Rat.sqrt_nonneg q) with h | h
  · exact h
  · exfalso
    have hz : Rat.sqrt q = 0 := h.symm
    rw [Rat.sqrt] at hz
    have := (Rat.mkRat_eq_zero h2).mp hz
    omega

theorem len_eq_zero_iff (a : Vec2) : a.len = 0 ↔ a.x = 0 ∧ a.y = 0 := by
  unfold Vec2.len
  constructor
  · intro h
    by_contra hc
    have hpos : 0 < a.x ^ 2 + a.y ^ 2 := by
      rcases not_and_or.mp hc with hx | hy
      · have : 0 < a.x ^ 2 := by positivity
        nlinarith [sq_nonneg a.y]
      · have : 0 < a.y ^ 2 := by positivity
        nlinarith [sq_nonneg a.x]
    exact absurd h (ne_of_gt (rat_sqrt_pos hpos))
  · rintro ⟨hx, hy⟩
    rw [hx, hy]
    have h0 : (0 : ℚ) ^ 2 + 0 ^ 2 = 0 := by norm_num
    rw [h0]
    have hs0 := Rat.sqrt_eq (0 : ℚ)
    simp only [mul_zero, abs_zero] at hs0
    exact hs0

end Sim

namespace Sim

/-- Per-axis occupied-cell rule as worded by the spec (§4.1): floor of the
coordinate, except `coordinate - 1` when the axis velocity is negative and
the coordinate is exactly an integer. -/
def specClassifyAxis (vel x : ℚ) : ℚ :=
  if vel < 0 ∧ x = (⌊x⌋ : ℚ) then x - 1 else (⌊x⌋ : ℚ)

theorem classifyAxis_spec (v x : ℚ) : classifyAxis (jsSign v) x = specClassifyAxis v x := by
  unfold classifyAxis specClassifyAxis
  by_cases h : v < 0 ∧ x = (⌊x⌋ : ℚ)
  · rw [if_pos h, if_pos]
    exact ⟨(jsSign_neg_iff v).mpr h.1,
      (jsRem_one_eq_zero_iff x).mpr ((fract_eq_zero_iff_floor x).mpr h.2)⟩
  · rw [if_neg h, if_neg]
    intro hc
    exact h ⟨(jsSign_neg_iff v).mp hc.1,
      (fract_eq_zero_iff_floor x).mp ((jsRem_one_eq_zero_iff x).mp hc.2)⟩

/-- Claim C6: at every iteration of the projection walk the occupied cell
is computed per axis as the floor of the continuous coordinate, except
that an axis whose step direction (the sign of the velocity) is negative
and whose coordinate is exactly an integer uses `coordinate - 1` instead;
the rule is applied independently to x and y.  (`occupiedCell` is exactly
the computation of use-path.ts lines 44-47 performed at the top of every
loop iteration; `specClassifyAxis` is the spec wording.) -/
theorem claim_C6_cell_classification (velocity : Vec2) (x y : ℚ) :
    occupiedCell velocity x y =
      ⟨specClassifyAxis velocity.x x, specClassifyAxis velocity.y y⟩ := by
  unfold occupiedCell
  rw [classifyAxis_spec, classifyAxis_spec]

/-- Claim C7 (amended): the integrator returns its input unchanged when
movement is disabled, the path is empty, or `elapsed` is exactly zero.
(For strictly negative `elapsed` the source instead fails its
`invariant(elapsed > 0)` assertion; see the counterexample.) -/
theorem claim_C7_guard (allow : Bool) (player : PlayerState)
    (path : List Segment) (elapsed : ℚ)
    (h : allow = false ∨ path = [] ∨ elapsed = 0) :
    movePlayer allow player path elapsed = some player := by
  rcases h with h | h | h
  · simp [movePlayer, h]
  · simp [movePlayer, h]
  · simp [movePlayer, h]

/-- Witness for claim C7: the guard at a concrete input (empty path). -/
theorem claim_C7_guard_witness :
    movePlayer true ⟨⟨0, 0⟩, ⟨0, 0⟩⟩ [] 1 = some ⟨⟨0, 0⟩, ⟨0, 0⟩⟩ :=
  claim_C7_guard true ⟨⟨0, 0⟩, ⟨0, 0⟩⟩ [] 1 (Or.inr (Or.inl rfl))

/-- Concrete one-second segment from the origin used in counterexamples. -/
def cexSeg : Segment := ⟨⟨0, 0⟩, ⟨1, 0⟩, ⟨1, 0⟩, 1, ⟨0, 0⟩, none⟩

/-- Concrete follow-up segment (starts where `cexSeg` ends). -/
def cexSeg2 : Segment := ⟨⟨1, 0⟩, ⟨2, 0⟩, ⟨1, 0⟩, 1, ⟨1, 0⟩, none⟩

/-- Concrete player state at the origin. -/
def cexPlayer : PlayerState := ⟨⟨0, 0⟩, ⟨0, 0⟩⟩

/-- Counterexample to claim C7 as stated: with movement enabled, a
non-empty path and `elapsed = -1 ≤ 0`, the integrator does not return the
state unchanged; it fails the `invariant(elapsed > 0)` assertion
(modelled as `none`). -/
theorem claim_C7_counterexample :
    movePlayer true cexPlayer [cexSeg] (-1) = none ∧
      (none : Option PlayerState) ≠ some cexPlayer := by
  constructor
  · norm_num [movePlayer, cexPlayer, cexSeg]
  · simp

theorem sumT_nil : sumT [] = 0 := rfl

theorem sumT_cons (s : Segment) (l : List Segment) : sumT (s :: l) = s.t + sumT l := by
  unfold sumT
  simp

theorem sumT_take_nonneg (l : List Segment) (k : ℕ) (h : ∀ s ∈ l, 0 < s.t) :
    0 ≤ sumT (l.take k) := by
  induction l generalizing k with
  | nil => simp [sumT_nil]
  | cons a l ih =>
    cases k with
    | zero => simp [sumT_nil]
    | succ k =>
      rw [List.take_succ_cons, sumT_cons]
      have h1 : 0 < a.t := h a (List.mem_cons_self a l)
      have h2 : 0 ≤ sumT (l.take k) := ih k (fun s hs => h s (List.mem_cons_of_mem a hs))
      linarith

theorem moveLoop_inside (segs : List Segment) (k : ℕ) (hk : k < segs.length)
    (elapsed : ℚ) (pos pt : Vec2) (hpos : ∀ s ∈ segs, 0 < s.t)
    (h1 : sumT (segs.take k) < elapsed)
    (h2 : elapsed - sumT (segs.take k) < (segs.get ⟨k, hk⟩).t) :
    moveLoop segs elapsed pos pt =
      ((segs.get ⟨k, hk⟩).a.add
        ((segs.get ⟨k, hk⟩).v.mul (elapsed - sumT (segs.take k))),
       (segs.get ⟨k, hk⟩).point) := by
  induction segs generalizing k elapsed pos pt with
  | nil => exact absurd hk (by simp)
  | cons s rest ih =>
    cases k with
    | zero =>
      have hget0 : (s :: rest).get ⟨0, hk⟩ = s := rfl
      rw [hget0] at h2 ⊢
      rw [List.take_zero, sumT_nil] at h1 h2 ⊢
      rw [sub_zero] at h2 ⊢
      unfold moveLoop
      rw [if_neg (not_le.mpr h1), if_pos h2]
    | succ k =>
      rw [List.take_succ_cons, sumT_cons] at h1 h2 ⊢
      have hk' : k < rest.length := by simpa using hk
      have hget : (s :: rest).get ⟨k + 1, hk⟩ = rest.get ⟨k, hk'⟩ := rfl
      rw [hget] at h2 ⊢
      have hrest : ∀ s ∈ rest, 0 < s.t := fun a ha => hpos a (List.mem_cons_of_mem s ha)
      have htake : 0 ≤ sumT (rest.take k) := sumT_take_nonneg rest k hrest
      have hst : 0 < s.t := hpos s (List.mem_cons_self s rest)
      have he : 0 < elapsed := by linarith
      unfold moveLoop
      rw [if_neg (not_le.mpr he), if_neg (not_lt.mpr (by linarith))]
      have h2' : elapsed - s.t - sumT (rest.take k) < (rest.get ⟨k, hk'⟩).t := by
        linarith
      rw [ih k hk' (elapsed - s.t) s.b s.point hrest (by linarith) h2']
      have harith : elapsed - s.t - sumT (List.take k rest)
          = elapsed - (s.t + sumT (List.take k rest)) := by ring
      rw [harith]

/-- Claim C1 (amended): when `elapsed` falls strictly inside segment `k`
of a positive-duration path, the integrator returns position
`segments[k].a + segments[k].v * (elapsed - sum of durations 0..k-1)`,
and the returned cell is segment `k`'s cell (the source updates
`point = part.point` in the partial-consumption branch too, so the cell
is NOT left at segment `k-1`'s cell; see the counterexample). -/
theorem claim_C1_partial_consumption (player : PlayerState) (segs : List Segment)
    (elapsed : ℚ) (k : ℕ) (hk : k < segs.length) (hpos : ∀ s ∈ segs, 0 < s.t)
    (h1 : sumT (segs.take k) < elapsed)
    (h2 : elapsed - sumT (segs.take k) < (segs.get ⟨k, hk⟩).t) :
    movePlayer true player segs elapsed =
      some ⟨(segs.get ⟨k, hk⟩).a.add
              ((segs.get ⟨k, hk⟩).v.mul (elapsed - sumT (segs.take k))),
            (segs.get ⟨k, hk⟩).point⟩ := by
  have htake : 0 ≤ sumT (segs.take k) := sumT_take_nonneg segs k hpos
  have he : 0 < elapsed := by linarith
  have hne : segs ≠ [] := by
    intro h
    rw [h] at hk
    exact absurd hk (by simp)
  unfold movePlayer
  rw [if_neg (by push_neg; exact ⟨by simp, hne, ne_of_gt he⟩), if_neg (not_le.mpr he)]
  rw [moveLoop_inside segs k hk elapsed player.position player.point hpos h1 h2]

/-- Witness for claim C1: a concrete two-segment path with
`elapsed = 3/2` landing strictly inside segment 1. -/
theorem claim_C1_witness :
    movePlayer true cexPlayer [cexSeg, cexSeg2] (3 / 2) = some ⟨⟨3 / 2, 0⟩, ⟨1, 0⟩⟩ := by
  have h := claim_C1_partial_consumption cexPlayer [cexSeg, cexSeg2] (3 / 2) 1
    (by norm_num)
    (by norm_num [cexSeg, cexSeg2])
    (by norm_num [sumT, cexSeg])
    (by norm_num [sumT, cexSeg, cexSeg2])
  rw [h]
  norm_num [sumT, cexSeg, cexSeg2, Vec2.add, Vec2.mul]

/-- Counterexample to claim C1 as stated: at the same concrete input the
claim predicts the cell of segment `k-1 = 0`, namely `(0,0)`, but the
integrator returns segment 1's cell `(1,0)` (same position `(3/2, 0)`). -/
theorem claim_C1_counterexample :
    movePlayer true cexPlayer [cexSeg, cexSeg2] (3 / 2) ≠ some ⟨⟨3 / 2, 0⟩, ⟨0, 0⟩⟩ := by
  have heval : movePlayer true cexPlayer [cexSeg, cexSeg2] (3 / 2)
      = some ⟨⟨(3 : ℚ) / 2, 0⟩, ⟨1, 0⟩⟩ := by
    norm_num [movePlayer, moveLoop, cexPlayer, cexSeg, cexSeg2, Vec2.add, Vec2.mul,
      List.cons_ne_nil]
  rw [heval]
  intro h
  rw [Option.some.injEq] at h
  have := congrArg (fun p => p.point.x) h
  norm_num at this
end Sim

namespace Sim

/-- IEEE-754 value classes of a JavaScript number: a finite value
(modelled exactly by a rational), the two infinities, or NaN.  This model
is used for the Vec2 class of src/unnamed/part_005, whose constructor
guards against NaN. -/
inductive JsNum where
  | fin (q : ℚ) : JsNum
  | inf : JsNum
  | ninf : JsNum
  | nan : JsNum
deriving DecidableEq, Repr

/-- JavaScript `Number.isNaN`. -/
def JsNum.isNaN : JsNum → Bool
  | JsNum.nan => true
  | _ => false

/-- JavaScript `Number.isFinite`. -/
def JsNum.isFinite : JsNum → Bool
  | JsNum.fin _ => true
  | _ => false

/-- IEEE addition on value classes. -/
def JsNum.add : JsNum → JsNum → JsNum
  | JsNum.nan, _ => JsNum.nan
  | _, JsNum.nan => JsNum.nan
  | JsNum.inf, JsNum.ninf => JsNum.nan
  | JsNum.ninf, JsNum.inf => JsNum.nan
  | JsNum.inf, _ => JsNum.inf
  | _, JsNum.inf => JsNum.inf
  | JsNum.ninf, _ => JsNum.ninf
  | _, JsNum.ninf => JsNum.ninf
  | JsNum.fin a, JsNum.fin b => JsNum.fin (a + b)

/-- IEEE subtraction on value classes. -/
def JsNum.sub : JsNum → JsNum → JsNum
  | JsNum.nan, _ => JsNum.nan
  | _, JsNum.nan => JsNum.nan
  | JsNum.inf, JsNum.inf => JsNum.nan
  | JsNum.ninf, JsNum.ninf => JsNum.nan
  | JsNum.inf, _ => JsNum.inf
  | _, JsNum.inf => JsNum.ninf
  | JsNum.ninf, _ => JsNum.ninf
  | _, JsNum.ninf => JsNum.inf
  | JsNum.fin a, JsNum.fin b => JsNum.fin (a - b)

/-- IEEE multiplication on value classes (an infinity times zero is NaN). -/
def JsNum.mul : JsNum → JsNum → JsNum
  | JsNum.nan, _ => JsNum.nan
  | _, JsNum.nan => JsNum.nan
  | JsNum.inf, JsNum.inf => JsNum.inf
  | JsNum.inf, JsNum.ninf => JsNum.ninf
  | JsNum.ninf, JsNum.inf => JsNum.ninf
  | JsNum.ninf, JsNum.ninf => JsNum.inf
  | JsNum.inf, JsNum.fin b => if b = 0 then JsNum.nan else if 0 < b then JsNum.inf else JsNum.ninf
  | JsNum.fin a, JsNum.inf => if a = 0 then JsNum.nan else if 0 < a then JsNum.inf else JsNum.ninf
  | JsNum.ninf, JsNum.fin b => if b = 0 then JsNum.nan else if 0 < b then JsNum.ninf else JsNum.inf
  | JsNum.fin a, JsNum.ninf => if a = 0 then JsNum.nan else if 0 < a then JsNum.ninf else JsNum.inf
  | JsNum.fin a, JsNum.fin b => JsNum.fin (a * b)

/-- IEEE division on value classes (positive zero only: a nonzero finite
value divided by zero is a signed infinity, `0/0` is NaN). -/
def JsNum.div : JsNum → JsNum → JsNum
  | JsNum.nan, _ => JsNum.nan
  | _, JsNum.nan => JsNum.nan
  | JsNum.inf, JsNum.inf => JsNum.nan
  | JsNum.inf, JsNum.ninf => JsNum.nan
  | JsNum.ninf, JsNum.inf => JsNum.nan
  | JsNum.ninf, JsNum.ninf => JsNum.nan
  | JsNum.inf, JsNum.fin b => if 0 ≤ b then JsNum.inf else JsNum.ninf
  | JsNum.ninf, JsNum.fin b => if 0 ≤ b then JsNum.ninf else JsNum.inf
  | JsNum.fin _, JsNum.inf => JsNum.fin 0
  | JsNum.fin _, JsNum.ninf => JsNum.fin 0
  | JsNum.fin a, JsNum.fin b =>
    if b = 0 then
      if a = 0 then JsNum.nan else if 0 < a then JsNum.inf else JsNum.ninf
    else JsNum.fin (a / b)

/-- IEEE `Math.sqrt` on value classes (negative input gives NaN; the
finite value is modelled by `Rat.sqrt`). -/
def JsNum.sqrt : JsNum → JsNum
  | JsNum.nan => JsNum.nan
  | JsNum.inf => JsNum.inf
  | JsNum.ninf => JsNum.nan
  | JsNum.fin q => if q < 0 then JsNum.nan else JsNum.fin (Rat.sqrt q)

/-- IEEE `Math.floor` on value classes. -/
def JsNum.floor : JsNum → JsNum
  | JsNum.nan => JsNum.nan
  | JsNum.inf => JsNum.inf
  | JsNum.ninf => JsNum.ninf
  | JsNum.fin q => JsNum.fin (⌊q⌋ : ℚ)

/-- The ECMAScript `%` on value classes. -/
def JsNum.rem : JsNum → JsNum → JsNum
  | JsNum.nan, _ => JsNum.nan
  | _, JsNum.nan => JsNum.nan
  | JsNum.inf, _ => JsNum.nan
  | JsNum.ninf, _ => JsNum.nan
  | JsNum.fin a, JsNum.inf => JsNum.fin a
  | JsNum.fin a, JsNum.ninf => JsNum.fin a
  | JsNum.fin a, JsNum.fin b => if b = 0 then JsNum.nan else JsNum.fin (jsRem a b)

/-- The `mod` helper of math.ts on value classes: `((n % m) + m) % m`. -/
def JsNum.jsmod (n m : JsNum) : JsNum := ((n.rem m).add m).rem m

/-- The Vec2 class of src/unnamed/part_005 over IEEE value classes. -/
structure Vec2E where
  x : JsNum
  y : JsNum
deriving DecidableEq, Repr

/-- The Vec2 constructor (src/unnamed/part_005 lines 8-13):
`invariant(!Number.isNaN(x)); invariant(!Number.isNaN(y))`.  A failed
invariant throws, modelled as `none`. -/
def mkVec2 (x y : JsNum) : Option Vec2E :=
  if x.isNaN ∨ y.isNaN then none else some ⟨x, y⟩

/-- Source: `Vec2.add` (every method builds its result with `new Vec2`). -/
def Vec2E.addV (a v : Vec2E) : Option Vec2E := mkVec2 (a.x.add v.x) (a.y.add v.y)

/-- Source: `Vec2.sub`, vector case. -/
def Vec2E.subV (a v : Vec2E) : Option Vec2E := mkVec2 (a.x.sub v.x) (a.y.sub v.y)

/-- Source: `Vec2.sub`, scalar case. -/
def Vec2E.subS (a : Vec2E) (s : JsNum) : Option Vec2E := mkVec2 (a.x.sub s) (a.y.sub s)

/-- Source: `Vec2.mul`. -/
def Vec2E.mulS (a : Vec2E) (s : JsNum) : Option Vec2E := mkVec2 (a.x.mul s) (a.y.mul s)

/-- Source: `Vec2.div` with its `invariant(s !== 0)` guard (NaN and the
infinities compare unequal to 0, so they pass the guard). -/
def Vec2E.divS (a : Vec2E) (s : JsNum) : Option Vec2E :=
  if s = JsNum.fin 0 then none else mkVec2 (a.x.div s) (a.y.div s)

/-- Source: `Vec2.len` = `Math.sqrt(x ** 2 + y ** 2)`. -/
def Vec2E.lenE (a : Vec2E) : JsNum := JsNum.sqrt ((a.x.mul a.x).add (a.y.mul a.y))

/-- Source: `Vec2.norm` (returns `this` unchanged when the length is 0). -/
def Vec2E.normE (a : Vec2E) : Option Vec2E :=
  if a.lenE = JsNum.fin 0 then some a else mkVec2 (a.x.div a.lenE) (a.y.div a.lenE)

/-- Source: `Vec2.floor`. -/
def Vec2E.floorE (a : Vec2E) : Option Vec2E := mkVec2 a.x.floor a.y.floor

/-- Source: `Vec2.mod`. -/
def Vec2E.modE (a : Vec2E) (m : JsNum) : Option Vec2E :=
  mkVec2 (a.x.jsmod m) (a.y.jsmod m)

/-- Claim C9 (amended): the Vec2 constructor rejects exactly NaN inputs
(in either component); ±Infinity is accepted, so infinite components can
propagate into constructed vectors.  Because every Vec2 method builds its
result through the constructor (`mkVec2`), no NaN component ever survives
construction, but finiteness is NOT enforced. -/
theorem claim_C9_constructor_nan_only (x y : JsNum) :
    mkVec2 x y = none ↔ (x.isNaN = true ∨ y.isNaN = true) := by
  unfold mkVec2
  split
  · rename_i h
    simpa using h
  · rename_i h
    simp only [not_or] at h
    constructor
    · intro hc
      exact absurd hc (by simp)
    · intro hc
      rcases hc with hc | hc
      · exact absurd hc (by simpa using h.1)
      · exact absurd hc (by simpa using h.2)

/-- Counterexample to claim C9 as stated: `+Infinity` is not finite, yet
the constructor accepts it (the source only guards against NaN), so a
non-finite component survives construction. -/
theorem claim_C9_counterexample :
    JsNum.isFinite JsNum.inf = false ∧
      mkVec2 JsNum.inf (JsNum.fin 0) = some ⟨JsNum.inf, JsNum.fin 0⟩ :=
  ⟨rfl, rfl⟩

end Sim

namespace Sim

/-- A concrete open (Grass) cell. -/
def grassCell : Cell := ⟨CellType.Grass, "green"⟩

/-- A concrete blocked (Stone) cell. -/
def stoneCell : Cell := ⟨CellType.Stone, "gray"⟩

/-- The world of the corner-priority scenario: `(0,0)` open, `(1,0)`
blocked, `(0,1)` open, everything else (including `(1,1)`) absent and
hence blocked. -/
def cornerWorld : World := ⟨fun i j =>
  if i = 0 ∧ j = 0 then some grassCell
  else if i = 1 ∧ j = 0 then some stoneCell
  else if i = 0 ∧ j = 1 then some grassCell
  else none⟩

theorem cornerWorld_step : pathStep cornerWorld ⟨1, 1/10⟩ (initState ⟨1, 1⟩) =
    StepOut.cont ⟨1, 21/20, ⟨1, 21/20⟩, 1/2,
      [⟨⟨1, 1⟩, ⟨1, 21/20⟩, ⟨0, 1/10⟩, 1/2, ⟨0, 1⟩, some ⟨1, 1⟩⟩]⟩ := by
  have hres : resolveBlocked cornerWorld ⟨1, 1/10⟩ 1 1 1 1 ⟨1, 1⟩
      = Resolved.go ⟨0, 1/10⟩ ⟨0, 1⟩ (some ⟨1, 1⟩) := by
    norm_num [resolveBlocked, tryAxis, lookupCell, cornerWorld, isCellBlocked,
      grassCell, stoneCell, jsRem, jsTrunc, Int.fract,
      show |(1 : ℚ)/10| < 1 from by rw [abs_of_pos] <;> norm_num]
  have hsnap : snap ((21 : ℚ)/20) = 21/20 := by
    have hr : jsRound ((21 : ℚ)/20) = 1 := by
      norm_num [jsRound, Int.floor_eq_iff]
    norm_num [snap, hr, jsEpsilon,
      show |(1 : ℚ)/20| = 1/20 from abs_of_pos (by norm_num)]
  have hsnap1 : snap (1 : ℚ) = 1 := snap_of_int (by norm_num [Int.fract])
  have hocc : occupiedCell ⟨1, 1/10⟩ 1 1 = (⟨1, 1⟩ : Vec2) := by
    norm_num [occupiedCell, classifyAxis, jsSign]
  have hlen : Vec2.len ⟨0, 1/10⟩ = 0 ↔ False := by
    rw [len_eq_zero_iff]; norm_num
  have hmod : mod (1 : ℚ) 1 = 0 := by rw [jsMod_one]; norm_num [Int.fract]
  have hs1 : jsSign (1 : ℚ) = 1 := by norm_num [jsSign]
  have hs2 : jsSign ((1 : ℚ)/10) = 1 := by norm_num [jsSign]
  simp only [pathStep, initState]
  norm_num only []
  rw [hocc]
  rw [if_neg (by norm_num [jsRem, jsTrunc])]
  simp only [hs1, hs2]
  rw [hres]
  dsimp only
  rw [if_neg (by rw [hlen]; exact not_false)]
  norm_num [hmod, pickT, optPos, clipT, PATH_TIME, Vec2.mul, Vec2.add,
    hsnap, hsnap1, show |(10 : ℚ)| = 10 from abs_of_pos (by norm_num)]

/-- Claim C5: starting at corner `(1,1)` with velocity `(1, 1/10)` in a
world with `(0,0)` open, `(1,0)` blocked, `(0,1)` open and `(1,1)` absent
(blocked), the projector prefers the dominant axis (`|v.x| > |v.y|`):
the x-axis probe hits the blocked cell `(1,0)`, the fallback y-axis probe
finds `(0,1)` open, and the first (only) emitted segment carries velocity
`(0, 1/10)` — x-component exactly zero, y-component unchanged — with
cell `(0,1)` and `blockedBy = (1,1)`. -/
theorem claim_C5_corner_priority :
    |(1 : ℚ)| > |(1 : ℚ)/10|
    ∧ isCellBlocked (lookupCell cornerWorld ⟨1, 0⟩) = true
    ∧ isCellBlocked (lookupCell cornerWorld ⟨0, 1⟩) = false
    ∧ tryAxis cornerWorld 1 1 ⟨1, 1⟩ ⟨1, 1/10⟩ Axis.x = none
    ∧ tryAxis cornerWorld 1 1 ⟨1, 1⟩ ⟨1, 1/10⟩ Axis.y = some (⟨0, 1⟩, ⟨0, 1/10⟩)
    ∧ usePathR 3 cornerWorld ⟨1, 1/10⟩ ⟨1, 1⟩ =
        some (⟨1, 21/20, ⟨1, 21/20⟩, 1/2,
          [⟨⟨1, 1⟩, ⟨1, 21/20⟩, ⟨0, 1/10⟩, 1/2, ⟨0, 1⟩, some ⟨1, 1⟩⟩]⟩,
          Outcome.completed) := by
  refine ⟨by rw [abs_of_pos, abs_of_pos] <;> norm_num, ?_, ?_, ?_, ?_, ?_⟩
  · norm_num [lookupCell, cornerWorld, isCellBlocked, stoneCell, Int.fract]
  · norm_num [lookupCell, cornerWorld, isCellBlocked, grassCell, Int.fract]
  · norm_num [tryAxis, lookupCell, cornerWorld, isCellBlocked, stoneCell, Int.fract]
  · norm_num [tryAxis, lookupCell, cornerWorld, isCellBlocked, grassCell, Int.fract]
  · have hvlen : Vec2.len ⟨1, 1/10⟩ = 0 ↔ False := by
      rw [len_eq_zero_iff]; norm_num
    unfold usePathR
    rw [if_neg (by rw [hvlen]; exact not_false)]
    unfold pathLoop
    rw [if_neg (by norm_num [initState, PATH_TIME]), cornerWorld_step]
    unfold pathLoop
    rw [if_pos (by norm_num [PATH_TIME])]

end Sim

namespace Sim

theorem sumT_append (l : List Segment) (s : Segment) :
    sumT (l ++ [s]) = sumT l + s.t := by
  unfold sumT
  simp

theorem clipT_snd_eq (t0 : Option ℚ) (time : ℚ) :
    (clipT t0 time).2 = time + (clipT t0 time).1 := by
  unfold clipT
  rcases t0 with _ | t
  · simp
  · dsimp only
    split
    · simp
    · rfl

theorem clipT_snd_le (t0 : Option ℚ) (time : ℚ) : (clipT t0 time).2 ≤ PATH_TIME := by
  unfold clipT
  rcases t0 with _ | t
  · simp
  · dsimp only
    split
    · simp
    · rename_i h
      simpa using le_of_not_lt h

theorem clipT_fst_pos {t0 : Option ℚ} {time : ℚ} (h1 : time < PATH_TIME)
    (h2 : optPos t0) : 0 < (clipT t0 time).1 := by
  unfold clipT
  rcases t0 with _ | t
  · simpa using h1
  · dsimp only
    split
    · simpa using h1
    · exact h2

theorem clipT_nonfinal {t0 : Option ℚ} {time tq : ℚ} (ht : t0 = some tq)
    (h : (clipT t0 time).2 ≠ PATH_TIME) :
    (clipT t0 time).1 = tq ∧ (clipT t0 time).2 = time + tq := by
  subst ht
  unfold clipT at h ⊢
  dsimp only at h ⊢
  split at h
  · exact absurd rfl h
  · rename_i hc
    rw [if_neg hc]
    exact ⟨rfl, rfl⟩

theorem tryAxis_some_x {w : World} {stepX stepY : ℚ} {point velocity p v : Vec2}
    (h : tryAxis w stepX stepY point velocity Axis.x = some (p, v)) :
    p = ⟨point.x, point.y - stepY⟩ ∧ v = ⟨velocity.x, 0⟩ := by
  simp only [tryAxis] at h
  split at h
  · exact absurd h (by simp)
  · rw [Option.some.injEq, Prod.mk.injEq] at h
    exact ⟨h.1.symm, h.2.symm⟩

theorem tryAxis_some_y {w : World} {stepX stepY : ℚ} {point velocity p v : Vec2}
    (h : tryAxis w stepX stepY point velocity Axis.y = some (p, v)) :
    p = ⟨point.x - stepX, point.y⟩ ∧ v = ⟨0, velocity.y⟩ := by
  simp only [tryAxis] at h
  split at h
  · exact absurd h (by simp)
  · rw [Option.some.injEq, Prod.mk.injEq] at h
    exact ⟨h.1.symm, h.2.symm⟩

theorem tryAxis_some_cases {w : World} {stepX stepY : ℚ} {point velocity p v : Vec2}
    {ax : Axis} (h : tryAxis w stepX stepY point velocity ax = some (p, v)) :
    (p = ⟨point.x, point.y - stepY⟩ ∧ v = ⟨velocity.x, 0⟩) ∨
      (p = ⟨point.x - stepX, point.y⟩ ∧ v = ⟨0, velocity.y⟩) := by
  cases ax
  · exact Or.inl (tryAxis_some_x h)
  · exact Or.inr (tryAxis_some_y h)

theorem resolveBlocked_go_cases {w : World} {velocity : Vec2} {stepX stepY x y : ℚ}
    {point0 v p : Vec2} {bb : Option Vec2}
    (h : resolveBlocked w velocity stepX stepY x y point0 = Resolved.go v p bb) :
    (v = velocity ∨ v = ⟨velocity.x, 0⟩ ∨ v = ⟨0, velocity.y⟩) ∧
      (p = point0 ∨ p = ⟨point0.x, point0.y - stepY⟩ ∨ p = ⟨point0.x - stepX, point0.y⟩) ∧
      (bb = none ∨ bb = some point0) := by
  unfold resolveBlocked at h
  split at h
  · rw [Resolved.go.injEq] at h
    exact ⟨Or.inl h.1.symm, Or.inl h.2.1.symm, Or.inl h.2.2.symm⟩
  · split at h
    · -- corner case: the axis-order if, then the two probes in sequence
      split at h <;>
      · dsimp only at h
        split at h
        · rename_i heq
          rw [Resolved.go.injEq] at h
          rcases tryAxis_some_cases heq with ⟨hp, hv⟩ | ⟨hp, hv⟩
          · exact ⟨Or.inr (Or.inl (h.1 ▸ hv)), Or.inr (Or.inl (h.2.1 ▸ hp)),
              Or.inr h.2.2.symm⟩
          · exact ⟨Or.inr (Or.inr (h.1 ▸ hv)), Or.inr (Or.inr (h.2.1 ▸ hp)),
              Or.inr h.2.2.symm⟩
        · split at h
          · rename_i heq
            rw [Resolved.go.injEq] at h
            rcases tryAxis_some_cases heq with ⟨hp, hv⟩ | ⟨hp, hv⟩
            · exact ⟨Or.inr (Or.inl (h.1 ▸ hv)), Or.inr (Or.inl (h.2.1 ▸ hp)),
                Or.inr h.2.2.symm⟩
            · exact ⟨Or.inr (Or.inr (h.1 ▸ hv)), Or.inr (Or.inr (h.2.1 ▸ hp)),
                Or.inr h.2.2.symm⟩
          · exact absurd h (by simp)
    · split at h
      · dsimp only at h
        split at h
        · rename_i heq
          rw [Resolved.go.injEq] at h
          rcases tryAxis_some_y heq with ⟨hp, hv⟩
          exact ⟨Or.inr (Or.inr (h.1 ▸ hv)), Or.inr (Or.inr (h.2.1 ▸ hp)),
            Or.inr h.2.2.symm⟩
        · exact absurd h (by simp)
      · split at h
        · dsimp only at h
          split at h
          · rename_i heq
            rw [Resolved.go.injEq] at h
            rcases tryAxis_some_x heq with ⟨hp, hv⟩
            exact ⟨Or.inr (Or.inl (h.1 ▸ hv)), Or.inr (Or.inl (h.2.1 ▸ hp)),
              Or.inr h.2.2.symm⟩
          · exact absurd h (by simp)
        · exact absurd h (by simp)

end Sim

namespace Sim

theorem pathStep_cont_inv {w : World} {vel : Vec2} {s s' : PLoopState}
    (h : pathStep w vel s = StepOut.cont s') :
    ∃ v point bb t0,
      jsRem (occupiedCell vel s.x s.y).x 1 = 0
      ∧ jsRem (occupiedCell vel s.x s.y).y 1 = 0
      ∧ resolveBlocked w vel (jsSign vel.x) (jsSign vel.y) s.x s.y
          (occupiedCell vel s.x s.y) = Resolved.go v point bb
      ∧ v.len ≠ 0
      ∧ t0 = pickT
          (if v.x = 0 then none else some |(jsSign vel.x - mod s.x (jsSign vel.x)) / v.x|)
          (if v.y = 0 then none else some |(jsSign vel.y - mod s.y (jsSign vel.y)) / v.y|)
      ∧ optPos t0
      ∧ 0 ≤ (clipT t0 s.time).1
      ∧ s' = ⟨snap (s.x + (v.mul (clipT t0 s.time).1).x),
              snap (s.y + (v.mul (clipT t0 s.time).1).y),
              ⟨snap (s.u.x + (v.mul (clipT t0 s.time).1).x),
               snap (s.u.y + (v.mul (clipT t0 s.time).1).y)⟩,
              (clipT t0 s.time).2,
              s.path ++ [⟨s.u,
                ⟨snap (s.u.x + (v.mul (clipT t0 s.time).1).x),
                 snap (s.u.y + (v.mul (clipT t0 s.time).1).y)⟩,
                v, (clipT t0 s.time).1, point, bb⟩]⟩ := by
  simp only [pathStep] at h
  split at h
  · exact absurd h (by simp)
  · rename_i hguard
    rw [not_not] at hguard
    split at h
    · exact absurd h (by simp)
    · exact absurd h (by simp)
    · rename_i v point bb heq
      split at h
      · exact absurd h (by simp)
      · rename_i hlen
        generalize ht0 : pickT
          (if v.x = 0 then none else some |(jsSign vel.x - mod s.x (jsSign vel.x)) / v.x|)
          (if v.y = 0 then none else some |(jsSign vel.y - mod s.y (jsSign vel.y)) / v.y|)
          = t0 at h
        split at h
        · exact absurd h (by simp)
        · rename_i hop
          rw [not_not] at hop
          split at h
          · exact absurd h (by simp)
          · rename_i hge
            rw [not_not] at hge
            rw [StepOut.cont.injEq] at h
            exact ⟨v, point, bb, t0, hguard.1, hguard.2, heq, hlen, ht0.symm, hop, hge, h.symm⟩


end Sim

namespace Sim

theorem jsSign_trichotomy (v : ℚ) : jsSign v = 0 ∨ jsSign v = 1 ∨ jsSign v = -1 := by
  unfold jsSign
  split
  · exact Or.inr (Or.inl rfl)
  · split
    · exact Or.inr (Or.inr rfl)
    · exact Or.inl rfl

theorem fract_sub_jsSign {a : ℚ} (v : ℚ) (ha : Int.fract a = 0) :
    Int.fract (a - jsSign v) = 0 := by
  rcases jsSign_trichotomy v with h | h | h <;> rw [h]
  · rwa [sub_zero]
  · rwa [Int.fract_sub_one]
  · rw [sub_neg_eq_add, Int.fract_add_one]
    exact ha

theorem pathStep_cont_facts {w : World} {vel : Vec2} {s s' : PLoopState}
    (h : pathStep w vel s = StepOut.cont s') :
    ∃ seg : Segment,
      s'.path = s.path ++ [seg]
      ∧ s'.time = s.time + seg.t
      ∧ s'.time ≤ PATH_TIME
      ∧ 0 ≤ seg.t
      ∧ (s.time < PATH_TIME → 0 < seg.t)
      ∧ seg.a = s.u
      ∧ seg.b = s'.u
      ∧ seg.point.isIntegral
      ∧ (∀ b ∈ seg.blockedBy, b.isIntegral) := by
  obtain ⟨v, point, bb, t0, hx, hy, heq, hlen, ht0, hop, hge, hs'⟩ := pathStep_cont_inv h
  subst hs'
  have hint : (occupiedCell vel s.x s.y).isIntegral :=
    ⟨(jsRem_one_eq_zero_iff _).mp hx, (jsRem_one_eq_zero_iff _).mp hy⟩
  refine ⟨⟨s.u,
    ⟨snap (s.u.x + (v.mul (clipT t0 s.time).1).x),
     snap (s.u.y + (v.mul (clipT t0 s.time).1).y)⟩,
    v, (clipT t0 s.time).1, point, bb⟩,
    rfl, clipT_snd_eq t0 s.time, clipT_snd_le t0 s.time, hge,
    fun hlt => clipT_fst_pos hlt hop, rfl, rfl, ?_, ?_⟩
  · rcases (resolveBlocked_go_cases heq).2.1 with hp | hp | hp <;> subst hp
    · exact hint
    · exact ⟨hint.1, fract_sub_jsSign vel.y hint.2⟩
    · exact ⟨fract_sub_jsSign vel.x hint.1, hint.2⟩
  · intro b hb
    rcases (resolveBlocked_go_cases heq).2.2 with hbb | hbb <;> subst hbb
    · simp at hb
    · rw [Option.mem_def, Option.some.injEq] at hb
      subst hb
      exact hint

end Sim

namespace Sim

theorem pathLoop_inv {w : World} {vel : Vec2} :
    ∀ (n : ℕ) (s st : PLoopState) (out : Outcome),
      pathLoop w vel n s = some (st, out) →
      sumT s.path = s.time → s.time ≤ PATH_TIME →
      sumT st.path = st.time ∧ st.time ≤ PATH_TIME
        ∧ (out = Outcome.completed → st.time = PATH_TIME)
        ∧ (out ≠ Outcome.completed → st.time < PATH_TIME) := by
  intro n
  induction n with
  | zero =>
    intro s st out h
    exact absurd h (by simp [pathLoop])
  | succ n ih =>
    intro s st out h hsum hle
    rw [pathLoop] at h
    split at h
    · rename_i hT
      rw [Option.some.injEq, Prod.mk.injEq] at h
      obtain ⟨h1, h2⟩ := h
      subst h1
      subst h2
      exact ⟨hsum, hle, fun _ => hT, fun hne => absurd rfl hne⟩
    · rename_i hT
      split at h
      · rw [Option.some.injEq, Prod.mk.injEq] at h
        obtain ⟨h1, h2⟩ := h
        subst h1
        subst h2
        refine ⟨hsum, hle, ?_, fun _ => lt_of_le_of_ne hle hT⟩
        intro hc
        exact absurd hc (by simp)
      · rw [Option.some.injEq, Prod.mk.injEq] at h
        obtain ⟨h1, h2⟩ := h
        subst h1
        subst h2
        refine ⟨hsum, hle, ?_, fun _ => lt_of_le_of_ne hle hT⟩
        intro hc
        exact absurd hc (by simp)
      · rename_i s'' hstep
        obtain ⟨seg, hpath, htime, hle', _, _, _, _, _, _⟩ := pathStep_cont_facts hstep
        have hsum' : sumT s''.path = s''.time := by
          rw [hpath, sumT_append, hsum, htime]
        exact ih s'' st out h hsum' hle'

/-- Claim C2: for every projected Path, the total duration equals
PATH_TIME when the walk completed its budget, and is strictly smaller
when the walk terminated early due to blocking (a wedged agent or a
velocity collapsed to none or zero, including a zero input velocity). -/
theorem claim_C2_time_budget (fuel : ℕ) (w : World) (velocity position : Vec2)
    (st : PLoopState) (out : Outcome)
    (h : usePathR fuel w velocity position = some (st, out)) :
    (out = Outcome.completed → sumT st.path = PATH_TIME)
    ∧ (out = Outcome.blocked → sumT st.path < PATH_TIME)
    ∧ (out ≠ Outcome.crashed →
        sumT st.path = PATH_TIME ∨ (out = Outcome.blocked ∧ sumT st.path < PATH_TIME)) := by
  unfold usePathR at h
  have hmain : (out = Outcome.completed → sumT st.path = PATH_TIME)
      ∧ (out ≠ Outcome.completed → sumT st.path < PATH_TIME) := by
    split at h
    · rw [Option.some.injEq, Prod.mk.injEq] at h
      obtain ⟨h1, h2⟩ := h
      subst h1
      constructor
      · intro hc
        rw [← h2] at hc
        exact absurd hc (by simp)
      · intro _
        norm_num [initState, sumT, PATH_TIME]
    · have := pathLoop_inv fuel (initState position) st out h
        (by simp [initState, sumT]) (by norm_num [initState, PATH_TIME])
      exact ⟨fun hc => this.1.trans (this.2.2.1 hc), fun hne => this.1 ▸ this.2.2.2 hne⟩
  refine ⟨hmain.1, fun hb => hmain.2 (by rw [hb]; simp), ?_⟩
  intro hnc
  cases out with
  | completed => exact Or.inl (hmain.1 rfl)
  | blocked => exact Or.inr ⟨rfl, hmain.2 (by simp)⟩
  | crashed => exact absurd rfl hnc

theorem pathLoop_chain {w : World} {vel : Vec2} :
    ∀ (n : ℕ) (s st : PLoopState) (out : Outcome),
      pathLoop w vel n s = some (st, out) →
      List.Chain' (fun sa sb => sa.b = sb.a) s.path →
      (∀ last ∈ s.path.getLast?, last.b = s.u) →
      List.Chain' (fun sa sb => sa.b = sb.a) st.path := by
  intro n
  induction n with
  | zero =>
    intro s st out h
    exact absurd h (by simp [pathLoop])
  | succ n ih =>
    intro s st out h hchain hlast
    rw [pathLoop] at h
    split at h
    · rw [Option.some.injEq, Prod.mk.injEq] at h
      obtain ⟨h1, _⟩ := h
      subst h1
      exact hchain
    · split at h
      · rw [Option.some.injEq, Prod.mk.injEq] at h
        obtain ⟨h1, _⟩ := h
        subst h1
        exact hchain
      · rw [Option.some.injEq, Prod.mk.injEq] at h
        obtain ⟨h1, _⟩ := h
        subst h1
        exact hchain
      · rename_i s'' hstep
        obtain ⟨seg, hpath, _, _, _, _, ha, hb, _, _⟩ := pathStep_cont_facts hstep
        have hchain' : List.Chain' (fun sa sb => sa.b = sb.a) s''.path := by
          rw [hpath, List.chain'_append]
          refine ⟨hchain, List.chain'_singleton _, ?_⟩
          intro x hx y hy
          rw [List.head?_cons, Option.mem_def, Option.some.injEq] at hy
          subst hy
          rw [ha]
          exact hlast x hx
        have hlast' : ∀ last ∈ s''.path.getLast?, last.b = s''.u := by
          intro last hl
          rw [hpath, List.getLast?_concat, Option.mem_def, Option.some.injEq] at hl
          subst hl
          exact hb
        exact ih s'' st out h hchain' hlast'

/-- Claim C4: in every Path returned by the projector, each segment starts
exactly (bit for bit, here: as equal rationals) where the previous one
ended: `segments[i].b = segments[i+1].a` for every adjacent pair. -/
theorem claim_C4_continuity (fuel : ℕ) (w : World) (velocity position : Vec2)
    (st : PLoopState) (out : Outcome)
    (h : usePathR fuel w velocity position = some (st, out))
    (i : ℕ) (hi : i + 1 < st.path.length) :
    (st.path.get ⟨i, by omega⟩).b = (st.path.get ⟨i + 1, hi⟩).a := by
  have hchain : List.Chain' (fun sa sb => sa.b = sb.a) st.path := by
    unfold usePathR at h
    split at h
    · rw [Option.some.injEq, Prod.mk.injEq] at h
      obtain ⟨h1, _⟩ := h
      subst h1
      simp [initState]
    · exact pathLoop_chain fuel (initState position) st out h
        (by simp [initState]) (by simp [initState])
  exact List.chain'_iff_get.mp hchain i (by omega)

theorem pathLoop_integral {w : World} {vel : Vec2} :
    ∀ (n : ℕ) (s st : PLoopState) (out : Outcome),
      pathLoop w vel n s = some (st, out) →
      (∀ seg ∈ s.path, seg.point.isIntegral ∧ ∀ b ∈ seg.blockedBy, b.isIntegral) →
      ∀ seg ∈ st.path, seg.point.isIntegral ∧ ∀ b ∈ seg.blockedBy, b.isIntegral := by
  intro n
  induction n with
  | zero =>
    intro s st out h
    exact absurd h (by simp [pathLoop])
  | succ n ih =>
    intro s st out h hall
    rw [pathLoop] at h
    split at h
    · rw [Option.some.injEq, Prod.mk.injEq] at h
      obtain ⟨h1, _⟩ := h
      subst h1
      exact hall
    · split at h
      · rw [Option.some.injEq, Prod.mk.injEq] at h
        obtain ⟨h1, _⟩ := h
        subst h1
        exact hall
      · rw [Option.some.injEq, Prod.mk.injEq] at h
        obtain ⟨h1, _⟩ := h
        subst h1
        exact hall
      · rename_i s'' hstep
        obtain ⟨seg, hpath, _, _, _, _, _, _, hpi, hbi⟩ := pathStep_cont_facts hstep
        refine ih s'' st out h ?_
        intro sg hsg
        rw [hpath, List.mem_append] at hsg
        rcases hsg with hsg | hsg
        · exact hall sg hsg
        · rw [List.mem_singleton] at hsg
          subst hsg
          exact ⟨hpi, hbi⟩

/-- Claim C10: every segment emitted by the projector carries a cell
(`point`) whose components are exact integers, and when `blockedBy` is
present its components are exact integers as well — including segments
whose cell was reassigned to an adjacent cell by collision resolution. -/
theorem claim_C10_integral_cells (fuel : ℕ) (w : World) (velocity position : Vec2)
    (st : PLoopState) (out : Outcome)
    (h : usePathR fuel w velocity position = some (st, out)) :
    ∀ seg ∈ st.path, seg.point.isIntegral ∧ ∀ b ∈ seg.blockedBy, b.isIntegral := by
  unfold usePathR at h
  split at h
  · rw [Option.some.injEq, Prod.mk.injEq] at h
    obtain ⟨h1, _⟩ := h
    subst h1
    simp [initState]
  · exact pathLoop_integral fuel (initState position) st out h (by simp [initState])

end Sim

namespace Sim

/-- A world whose every cell is open. -/
def openWorld : World := ⟨fun _ _ => some grassCell⟩

/-- First segment of the straight witness run. -/
def runSeg1 : Segment := ⟨⟨0, 0⟩, ⟨1, 0⟩, ⟨4, 0⟩, 1/4, ⟨0, 0⟩, none⟩

/-- Second segment of the straight witness run. -/
def runSeg2 : Segment := ⟨⟨1, 0⟩, ⟨2, 0⟩, ⟨4, 0⟩, 1/4, ⟨1, 0⟩, none⟩

theorem openWorld_step1 : pathStep openWorld ⟨4, 0⟩ (initState ⟨0, 0⟩) =
    StepOut.cont ⟨1, 0, ⟨1, 0⟩, 1/4, [runSeg1]⟩ := by
  have hres : resolveBlocked openWorld ⟨4, 0⟩ 1 0 0 0 ⟨0, 0⟩
      = Resolved.go ⟨4, 0⟩ ⟨0, 0⟩ none := by
    norm_num [resolveBlocked, lookupCell, openWorld, isCellBlocked, grassCell]
  have hocc : occupiedCell ⟨4, 0⟩ 0 0 = (⟨0, 0⟩ : Vec2) := by
    norm_num [occupiedCell, classifyAxis, jsSign]
  have hlen : Vec2.len ⟨4, 0⟩ = 0 ↔ False := by
    rw [len_eq_zero_iff]; norm_num
  have hmod : mod (0 : ℚ) 1 = 0 := by rw [jsMod_one]; norm_num [Int.fract]
  have hs4 : jsSign (4 : ℚ) = 1 := by norm_num [jsSign]
  have hs0 : jsSign (0 : ℚ) = 0 := by norm_num [jsSign]
  have hsnap1 : snap (1 : ℚ) = 1 := snap_of_int (by norm_num [Int.fract])
  have hsnap0 : snap (0 : ℚ) = 0 := snap_of_int (by norm_num [Int.fract])
  simp only [pathStep, initState]
  norm_num only []
  rw [hocc]
  rw [if_neg (by norm_num [jsRem, jsTrunc])]
  simp only [hs4, hs0]
  rw [hres]
  dsimp only
  rw [if_neg (by rw [hlen]; exact not_false)]
  norm_num [hmod, pickT, optPos, clipT, PATH_TIME, Vec2.mul, runSeg1,
    hsnap1, hsnap0, show |(1 : ℚ)/4| = 1/4 from abs_of_pos (by norm_num)]

theorem openWorld_step2 : pathStep openWorld ⟨4, 0⟩ ⟨1, 0, ⟨1, 0⟩, 1/4, [runSeg1]⟩ =
    StepOut.cont ⟨2, 0, ⟨2, 0⟩, 1/2, [runSeg1, runSeg2]⟩ := by
  have hres : resolveBlocked openWorld ⟨4, 0⟩ 1 0 1 0 ⟨1, 0⟩
      = Resolved.go ⟨4, 0⟩ ⟨1, 0⟩ none := by
    norm_num [resolveBlocked, lookupCell, openWorld, isCellBlocked, grassCell]
  have hocc : occupiedCell ⟨4, 0⟩ 1 0 = (⟨1, 0⟩ : Vec2) := by
    norm_num [occupiedCell, classifyAxis, jsSign]
  have hlen : Vec2.len ⟨4, 0⟩ = 0 ↔ False := by
    rw [len_eq_zero_iff]; norm_num
  have hmod : mod (1 : ℚ) 1 = 0 := by rw [jsMod_one]; norm_num [Int.fract]
  have hs4 : jsSign (4 : ℚ) = 1 := by norm_num [jsSign]
  have hs0 : jsSign (0 : ℚ) = 0 := by norm_num [jsSign]
  have hsnap2 : snap (2 : ℚ) = 2 := snap_of_int (by norm_num [Int.fract])
  have hsnap0 : snap (0 : ℚ) = 0 := snap_of_int (by norm_num [Int.fract])
  simp only [pathStep]
  norm_num only []
  rw [hocc]
  rw [if_neg (by norm_num [jsRem, jsTrunc])]
  simp only [hs4, hs0]
  rw [hres]
  dsimp only
  rw [if_neg (by rw [hlen]; exact not_false)]
  norm_num [hmod, pickT, optPos, clipT, PATH_TIME, Vec2.mul, runSeg1, runSeg2,
    hsnap2, hsnap0, show |(1 : ℚ)/4| = 1/4 from abs_of_pos (by norm_num)]

theorem openWorld_run : usePathR 3 openWorld ⟨4, 0⟩ ⟨0, 0⟩ =
    some (⟨2, 0, ⟨2, 0⟩, 1/2, [runSeg1, runSeg2]⟩, Outcome.completed) := by
  have hvlen : Vec2.len ⟨4, 0⟩ = 0 ↔ False := by
    rw [len_eq_zero_iff]; norm_num
  unfold usePathR
  rw [if_neg (by rw [hvlen]; exact not_false)]
  unfold pathLoop
  rw [if_neg (by norm_num [initState, PATH_TIME]), openWorld_step1]
  unfold pathLoop
  rw [if_neg (by norm_num [PATH_TIME]), openWorld_step2]
  unfold pathLoop
  rw [if_pos (by norm_num [PATH_TIME])]

/-- Witness for claim C2: the straight two-segment run completes its
budget and its durations sum to PATH_TIME. -/
theorem claim_C2_witness : sumT [runSeg1, runSeg2] = PATH_TIME :=
  (claim_C2_time_budget 3 openWorld ⟨4, 0⟩ ⟨0, 0⟩
    ⟨2, 0, ⟨2, 0⟩, 1/2, [runSeg1, runSeg2]⟩ Outcome.completed openWorld_run).1 rfl

/-- Witness for claim C4: in the straight two-segment run, segment 0 ends
exactly where segment 1 starts. -/
theorem claim_C4_witness :
    ([runSeg1, runSeg2].get ⟨0, by norm_num⟩).b = ([runSeg1, runSeg2].get ⟨1, by norm_num⟩).a :=
  claim_C4_continuity 3 openWorld ⟨4, 0⟩ ⟨0, 0⟩
    ⟨2, 0, ⟨2, 0⟩, 1/2, [runSeg1, runSeg2]⟩ Outcome.completed openWorld_run 0 (by norm_num)

/-- Witness for claim C10: the first segment of the straight run has an
integral cell and no blockedBy. -/
theorem claim_C10_witness :
    runSeg1.point.isIntegral ∧ ∀ b ∈ runSeg1.blockedBy, b.isIntegral :=
  claim_C10_integral_cells 3 openWorld ⟨4, 0⟩ ⟨0, 0⟩
    ⟨2, 0, ⟨2, 0⟩, 1/2, [runSeg1, runSeg2]⟩ Outcome.completed openWorld_run
    runSeg1 (by simp)

end Sim

namespace Sim

theorem classifyAxis_jsRem (step x : ℚ) : jsRem (classifyAxis step x) 1 = 0 := by
  unfold classifyAxis
  split
  · rename_i h
    rw [jsRem_one_eq_zero_iff] at h ⊢
    rw [Int.fract_sub_one]
    exact h.2
  · rw [jsRem_one_eq_zero_iff]
    exact Int.fract_intCast _

theorem tryAxis_x_none {w : World} {stepX stepY : ℚ} {point velocity : Vec2}
    (hbx : isCellBlocked (lookupCell w ⟨point.x, point.y - stepY⟩) = true) :
    tryAxis w stepX stepY point velocity Axis.x = none := by
  simp only [tryAxis]
  rw [if_pos hbx]

theorem tryAxis_y_none {w : World} {stepX stepY : ℚ} {point velocity : Vec2}
    (hby : isCellBlocked (lookupCell w ⟨point.x - stepX, point.y⟩) = true) :
    tryAxis w stepX stepY point velocity Axis.y = none := by
  simp only [tryAxis]
  rw [if_pos hby]

theorem resolveBlocked_wedged {w : World} {v : Vec2} {stepX stepY x y : ℚ}
    {point0 : Vec2}
    (hx' : jsRem x 1 = 0) (hy' : jsRem y 1 = 0)
    (hb : isCellBlocked (lookupCell w point0) = true)
    (hbx : isCellBlocked (lookupCell w ⟨point0.x, point0.y - stepY⟩) = true)
    (hby : isCellBlocked (lookupCell w ⟨point0.x - stepX, point0.y⟩) = true) :
    resolveBlocked w v stepX stepY x y point0 = Resolved.wedged (some point0) := by
  unfold resolveBlocked
  rw [if_neg (not_not_intro hb)]
  dsimp only
  rw [if_pos ⟨hx', hy'⟩]
  have htx : tryAxis w stepX stepY point0 v Axis.x = none := tryAxis_x_none hbx
  have hty : tryAxis w stepX stepY point0 v Axis.y = none := tryAxis_y_none hby
  by_cases hv : |v.x| > |v.y|
  · rw [if_pos hv, if_pos hv]
    simp [htx, hty]
  · rw [if_neg hv, if_neg hv]
    simp [htx, hty]

theorem pathStep_wedged {w : World} {v : Vec2} {s : PLoopState}
    (hx' : jsRem s.x 1 = 0) (hy' : jsRem s.y 1 = 0)
    (hb : isCellBlocked (lookupCell w (occupiedCell v s.x s.y)) = true)
    (hbx : isCellBlocked (lookupCell w
      ⟨(occupiedCell v s.x s.y).x, (occupiedCell v s.x s.y).y - jsSign v.y⟩) = true)
    (hby : isCellBlocked (lookupCell w
      ⟨(occupiedCell v s.x s.y).x - jsSign v.x, (occupiedCell v s.x s.y).y⟩) = true) :
    pathStep w v s = StepOut.brk := by
  simp only [pathStep]
  rw [if_neg (not_not_intro
    ⟨classifyAxis_jsRem (jsSign v.x) s.x, classifyAxis_jsRem (jsSign v.y) s.y⟩)]
  rw [resolveBlocked_wedged hx' hy' hb hbx hby]

theorem usePathR_wedged (fuel : ℕ) {w : World} {v : Vec2} {x y : ℚ}
    (hx' : jsRem x 1 = 0) (hy' : jsRem y 1 = 0)
    (hb : isCellBlocked (lookupCell w (occupiedCell v x y)) = true)
    (hbx : isCellBlocked (lookupCell w
      ⟨(occupiedCell v x y).x, (occupiedCell v x y).y - jsSign v.y⟩) = true)
    (hby : isCellBlocked (lookupCell w
      ⟨(occupiedCell v x y).x - jsSign v.x, (occupiedCell v x y).y⟩) = true) :
    usePathR (fuel + 1) w v ⟨x, y⟩ = some (initState ⟨x, y⟩, Outcome.blocked) := by
  unfold usePathR
  split
  · rfl
  · unfold pathLoop
    rw [if_neg (by norm_num [initState, PATH_TIME])]
    rw [pathStep_wedged hx' hy' hb hbx hby]

/-- Claim C8 (amended): for every world in which the classified starting
corner cell is blocked and both candidate slide-adjacent cells are
blocked, projection from that corner yields the empty Path (total
duration 0); the walk breaks before emitting any segment, so no segment
(and in particular no `blockedBy`) is observable.  The original claim's
"last segment has blockedBy set" is impossible (see counterexample). -/
theorem claim_C8_wedged_corner (fuel : ℕ) (w : World) (v : Vec2) (x y : ℚ)
    (hx : Int.fract x = 0) (hy : Int.fract y = 0)
    (hb : isCellBlocked (lookupCell w (occupiedCell v x y)) = true)
    (hbx : isCellBlocked (lookupCell w
      ⟨(occupiedCell v x y).x, (occupiedCell v x y).y - jsSign v.y⟩) = true)
    (hby : isCellBlocked (lookupCell w
      ⟨(occupiedCell v x y).x - jsSign v.x, (occupiedCell v x y).y⟩) = true) :
    usePathR (fuel + 1) w v ⟨x, y⟩ = some (initState ⟨x, y⟩, Outcome.blocked)
    ∧ (initState ⟨x, y⟩).path = []
    ∧ sumT (initState ⟨x, y⟩).path = 0 := by
  refine ⟨usePathR_wedged fuel ((jsRem_one_eq_zero_iff x).mpr hx)
    ((jsRem_one_eq_zero_iff y).mpr hy) hb hbx hby, rfl, ?_⟩
  simp [initState, sumT]

/-- A world with no cells at all: every lookup is blocked. -/
def emptyWorld : World := ⟨fun _ _ => none⟩

theorem emptyWorld_blocked (p : Vec2) : isCellBlocked (lookupCell emptyWorld p) = true := by
  unfold lookupCell emptyWorld
  split <;> rfl

/-- Witness for claim C8: the all-absent world wedges the walk at corner
`(0,0)` with velocity `(1,1)`: the projection is the empty path. -/
theorem claim_C8_witness :
    usePathR 3 emptyWorld ⟨1, 1⟩ ⟨0, 0⟩ = some (initState ⟨0, 0⟩, Outcome.blocked)
    ∧ (initState (⟨0, 0⟩ : Vec2)).path = []
    ∧ sumT (initState (⟨0, 0⟩ : Vec2)).path = 0 :=
  claim_C8_wedged_corner 2 emptyWorld ⟨1, 1⟩ 0 0
    (by norm_num [Int.fract]) (by norm_num [Int.fract])
    (emptyWorld_blocked _) (emptyWorld_blocked _) (emptyWorld_blocked _)

/-- Counterexample to claim C8 as stated: at the wedged corner the
projector returns the empty Path, which has no last segment at all, so
"the last segment has blockedBy set" fails. -/
theorem claim_C8_counterexample :
    usePath 3 emptyWorld ⟨1, 1⟩ ⟨0, 0⟩ = some []
    ∧ ([] : List Segment).getLast? = none := by
  constructor
  · unfold usePath
    rw [usePathR_wedged 2
      (by norm_num [jsRem, jsTrunc]) (by norm_num [jsRem, jsTrunc])
      (emptyWorld_blocked _) (emptyWorld_blocked _) (emptyWorld_blocked _)]
    rfl
  · rfl

end Sim

namespace Sim

/-- Remaining grid-line crossings of one axis, as a rational: the time
budget left at speed `|vel|` minus the distance to the next line. -/
def axisGoal (vel x time : ℚ) : ℚ := (PATH_TIME - time) * |vel| - axisD x (jsSign vel)

/-- Crossing count of one axis (zero for a zero-velocity axis). -/
def axisN (vel x time : ℚ) : ℕ := if vel = 0 then 0 else ⌈axisGoal vel x time⌉₊

/-- Termination measure of the projection loop: the remaining crossing
counts of both axes. -/
def stepMeasure (vel : Vec2) (s : PLoopState) : ℕ :=
  axisN vel.x s.x s.time + axisN vel.y s.y s.time

/-- A fuel bound sufficient for the projection loop to finish. -/
def pathFuel (vel : Vec2) : ℕ :=
  ⌈PATH_TIME * |vel.x|⌉₊ + ⌈PATH_TIME * |vel.y|⌉₊ + 2

theorem natCeil_lt_natCeil_of_add_one_le {a b : ℚ} (h : a + 1 ≤ b) (hb : 0 < b) :
    ⌈a⌉₊ < ⌈b⌉₊ := by
  rcases le_or_lt a 0 with ha | ha
  · have h1 : 0 < ⌈b⌉₊ := Nat.ceil_pos.mpr hb
    have h2 : ⌈a⌉₊ = 0 := Nat.ceil_eq_zero.mpr ha
    omega
  · have h1 : ⌈a + 1⌉₊ = ⌈a⌉₊ + 1 := Nat.ceil_add_one (le_of_lt ha)
    have h2 : ⌈a + 1⌉₊ ≤ ⌈b⌉₊ := Nat.ceil_mono h
    omega

theorem axisN_cross {vel x time t : ℚ} (hvel : vel ≠ 0)
    (hcross : |vel| * t = axisD x (jsSign vel)) (hfin : time + t < PATH_TIME) :
    axisN vel (snap (x + vel * t)) (time + t) < axisN vel x time := by
  have hstep := jsSign_cases hvel
  have habs : 0 < |vel| := abs_pos.mpr hvel
  have hland : Int.fract (x + vel * t) = 0 := by
    rw [jsSign_mul_abs hvel, hcross]
    exact axis_land hstep x
  have hsnap : snap (x + vel * t) = x + vel * t := snap_of_int hland
  have hd1 : axisD (x + vel * t) (jsSign vel) = 1 := axisD_of_int hstep hland
  unfold axisN
  rw [if_neg hvel, if_neg hvel]
  unfold axisGoal
  rw [hsnap, hd1]
  have hb : (PATH_TIME - time) * |vel| - axisD x (jsSign vel)
      = (PATH_TIME - (time + t)) * |vel| := by
    rw [← hcross]; ring
  apply natCeil_lt_natCeil_of_add_one_le
  · rw [hb]; ring_nf; exact le_refl _
  · rw [hb]
    exact mul_pos (by linarith) habs

theorem axisN_noninc {vel vX x time t : ℚ}
    (hcase : vX = vel ∨ vX = 0) (ht0 : 0 ≤ t)
    (hle : vX = vel → vel ≠ 0 → |vel| * t ≤ axisD x (jsSign vel)) :
    axisN vel (snap (x + vX * t)) (time + t) ≤ axisN vel x time := by
  by_cases hvel : vel = 0
  · subst hvel
    simp [axisN]
  · have hstep := jsSign_cases hvel
    have habs : 0 < |vel| := abs_pos.mpr hvel
    have hsnapge : axisD (x + vX * t) (jsSign vel) ≤ axisD (snap (x + vX * t)) (jsSign vel) :=
      axisD_snap_ge hstep _
    have hkey : axisD x (jsSign vel) ≤ axisD (x + vX * t) (jsSign vel) + |vel| * t := by
      rcases hcase with hv | hv
      · subst hv
        have hm := hle rfl hvel
        rcases lt_or_eq_of_le hm with hm1 | hm1
        · have hmove : x + vX * t = x + jsSign vX * (|vX| * t) := by
            rw [jsSign_mul_abs hvel]
          rw [hmove, axis_partial hstep (mul_nonneg (abs_nonneg vX) ht0) hm1]
          linarith
        · have hland : Int.fract (x + vX * t) = 0 := by
            rw [jsSign_mul_abs hvel, hm1]
            exact axis_land hstep x
          rw [axisD_of_int hstep hland]
          have hle1 := axisD_le_one hstep x
          linarith
      · subst hv
        rw [zero_mul, add_zero]
        linarith [mul_nonneg (abs_nonneg vel) ht0]
    unfold axisN
    rw [if_neg hvel, if_neg hvel]
    apply Nat.ceil_mono
    unfold axisGoal
    have hexp : (PATH_TIME - (time + t)) * |vel| = (PATH_TIME - time) * |vel| - |vel| * t := by
      ring
    rw [hexp]
    linarith

theorem pickT_some_cases {A B : Option ℚ} {tq : ℚ} (h : pickT A B = some tq) :
    (A = some tq ∧ ∀ b, B = some b → tq ≤ b)
    ∨ (B = some tq ∧ ∀ a, A = some a → tq ≤ a) := by
  cases A with
  | none =>
    cases B with
    | none => exact absurd h (by simp [pickT])
    | some b =>
      right
      rw [pickT] at h
      exact ⟨h, fun a ha => absurd ha (by simp)⟩
  | some a =>
    cases B with
    | none =>
      left
      rw [pickT] at h
      exact ⟨h, fun b hb => absurd hb (by simp)⟩
    | some b =>
      rw [pickT] at h
      rw [Option.some.injEq] at h
      split at h
      · left
        refine ⟨by rw [h], fun b' hb' => ?_⟩
        rw [Option.some.injEq] at hb'
        subst hb'
        rename_i hab
        exact h ▸ le_of_lt hab
      · right
        refine ⟨by rw [h], fun a' ha' => ?_⟩
        rw [Option.some.injEq] at ha'
        subst ha'
        rename_i hab
        exact h ▸ le_of_not_lt hab

end Sim

namespace Sim

theorem stepMeasure_decrease {w : World} {vel : Vec2} {s s' : PLoopState}
    (h : pathStep w vel s = StepOut.cont s') (hfin : s'.time < PATH_TIME) :
    stepMeasure vel s' < stepMeasure vel s := by
  obtain ⟨v, point, bb, t0, hx, hy, heq, hlen, ht0, hop, hge, hs'⟩ := pathStep_cont_inv h
  have hvcases := (resolveBlocked_go_cases heq).1
  have hvx : v.x = vel.x ∨ v.x = 0 := by
    rcases hvcases with hc | hc | hc <;> subst hc <;> simp
  have hvy : v.y = vel.y ∨ v.y = 0 := by
    rcases hvcases with hc | hc | hc <;> subst hc <;> simp
  subst hs'
  have hTne : (clipT t0 s.time).2 ≠ PATH_TIME := ne_of_lt hfin
  obtain ⟨tq, htq⟩ : ∃ tq, t0 = some tq := by
    cases t0 with
    | none => exact absurd rfl hTne
    | some tq => exact ⟨tq, rfl⟩
  obtain ⟨hc1, hc2⟩ := clipT_nonfinal htq hTne
  have htqpos : 0 < tq := by
    rw [htq] at hop
    exact hop
  have htfin : s.time + tq < PATH_TIME := by
    rw [← hc2]
    exact hfin
  rw [ht0] at htq
  have hmulx : (v.mul (clipT t0 s.time).1).x = v.x * tq := by rw [hc1]; rfl
  have hmuly : (v.mul (clipT t0 s.time).1).y = v.y * tq := by rw [hc1]; rfl
  have hgoal : stepMeasure vel ⟨snap (s.x + (v.mul (clipT t0 s.time).1).x),
      snap (s.y + (v.mul (clipT t0 s.time).1).y),
      ⟨snap (s.u.x + (v.mul (clipT t0 s.time).1).x),
       snap (s.u.y + (v.mul (clipT t0 s.time).1).y)⟩,
      (clipT t0 s.time).2,
      s.path ++ [⟨s.u,
        ⟨snap (s.u.x + (v.mul (clipT t0 s.time).1).x),
         snap (s.u.y + (v.mul (clipT t0 s.time).1).y)⟩,
        v, (clipT t0 s.time).1, point, bb⟩]⟩
      = axisN vel.x (snap (s.x + v.x * tq)) (s.time + tq)
        + axisN vel.y (snap (s.y + v.y * tq)) (s.time + tq) := by
    unfold stepMeasure
    rw [hmulx, hmuly]
    rw [show (⟨snap (s.x + v.x * tq), snap (s.y + v.y * tq),
      ⟨snap (s.u.x + (v.mul (clipT t0 s.time).1).x),
       snap (s.u.y + (v.mul (clipT t0 s.time).1).y)⟩,
      (clipT t0 s.time).2,
      s.path ++ [⟨s.u,
        ⟨snap (s.u.x + (v.mul (clipT t0 s.time).1).x),
         snap (s.u.y + (v.mul (clipT t0 s.time).1).y)⟩,
        v, (clipT t0 s.time).1, point, bb⟩]⟩ : PLoopState).time
      = (clipT t0 s.time).2 from rfl, hc2]
  rw [hgoal]
  rcases pickT_some_cases htq with ⟨hA, hB⟩ | ⟨hB, hA⟩
  · -- the x axis is the crossing axis
    have hvx0 : v.x ≠ 0 := by
      intro h0
      rw [if_pos h0] at hA
      exact absurd hA (by simp)
    rw [if_neg hvx0, Option.some.injEq] at hA
    have hvxvel : v.x = vel.x := hvx.resolve_right hvx0
    have hvelx : vel.x ≠ 0 := hvxvel ▸ hvx0
    have habsx : 0 < |vel.x| := abs_pos.mpr hvelx
    have htmx : |vel.x| * tq = axisD s.x (jsSign vel.x) := by
      rw [← hA, hvxvel, abs_div]
      rw [show |jsSign vel.x - mod s.x (jsSign vel.x)| = axisD s.x (jsSign vel.x) from rfl]
      field_simp
    have hX : axisN vel.x (snap (s.x + vel.x * tq)) (s.time + tq) < axisN vel.x s.x s.time :=
      axisN_cross hvelx htmx htfin
    have hY : axisN vel.y (snap (s.y + v.y * tq)) (s.time + tq) ≤ axisN vel.y s.y s.time := by
      apply axisN_noninc hvy (le_of_lt htqpos)
      intro hvyvel hvely
      have hvy0 : v.y ≠ 0 := by rw [hvyvel]; exact hvely
      have habsy : 0 < |vel.y| := abs_pos.mpr hvely
      have hBy := hB |(jsSign vel.y - mod s.y (jsSign vel.y)) / v.y| (by rw [if_neg hvy0])
      rw [hvyvel, abs_div] at hBy
      rw [show |jsSign vel.y - mod s.y (jsSign vel.y)| = axisD s.y (jsSign vel.y) from rfl]
        at hBy
      calc |vel.y| * tq ≤ |vel.y| * (axisD s.y (jsSign vel.y) / |vel.y|) := by
            exact mul_le_mul_of_nonneg_left hBy (abs_nonneg vel.y)
        _ = axisD s.y (jsSign vel.y) := by field_simp
    rw [hvxvel]
    unfold stepMeasure
    omega
  · -- the y axis is the crossing axis
    have hvy0 : v.y ≠ 0 := by
      intro h0
      rw [if_pos h0] at hB
      exact absurd hB (by simp)
    rw [if_neg hvy0, Option.some.injEq] at hB
    have hvyvel : v.y = vel.y := hvy.resolve_right hvy0
    have hvely : vel.y ≠ 0 := hvyvel ▸ hvy0
    have habsy : 0 < |vel.y| := abs_pos.mpr hvely
    have htmy : |vel.y| * tq = axisD s.y (jsSign vel.y) := by
      rw [← hB, hvyvel, abs_div]
      rw [show |jsSign vel.y - mod s.y (jsSign vel.y)| = axisD s.y (jsSign vel.y) from rfl]
      field_simp
    have hY : axisN vel.y (snap (s.y + vel.y * tq)) (s.time + tq) < axisN vel.y s.y s.time :=
      axisN_cross hvely htmy htfin
    have hX : axisN vel.x (snap (s.x + v.x * tq)) (s.time + tq) ≤ axisN vel.x s.x s.time := by
      apply axisN_noninc hvx (le_of_lt htqpos)
      intro hvxvel hvelx
      have hvx0 : v.x ≠ 0 := by rw [hvxvel]; exact hvelx
      have habsx : 0 < |vel.x| := abs_pos.mpr hvelx
      have hAx := hA |(jsSign vel.x - mod s.x (jsSign vel.x)) / v.x| (by rw [if_neg hvx0])
      rw [hvxvel, abs_div] at hAx
      rw [show |jsSign vel.x - mod s.x (jsSign vel.x)| = axisD s.x (jsSign vel.x) from rfl]
        at hAx
      calc |vel.x| * tq ≤ |vel.x| * (axisD s.x (jsSign vel.x) / |vel.x|) := by
            exact mul_le_mul_of_nonneg_left hAx (abs_nonneg vel.x)
        _ = axisD s.x (jsSign vel.x) := by field_simp
    rw [hvyvel]
    unfold stepMeasure
    omega

end Sim

namespace Sim

theorem pathLoop_succ (w : World) (vel : Vec2) (n : ℕ) (s : PLoopState) :
    pathLoop w vel (n + 1) s =
      if s.time = PATH_TIME then some (s, Outcome.completed)
      else
        match pathStep w vel s with
        | StepOut.crash => some (s, Outcome.crashed)
        | StepOut.brk => some (s, Outcome.blocked)
        | StepOut.cont s' => pathLoop w vel n s' := rfl

theorem pathLoop_total {w : World} {vel : Vec2} :
    ∀ (n : ℕ) (s : PLoopState), s.time ≤ PATH_TIME → stepMeasure vel s + 2 ≤ n →
      (pathLoop w vel n s).isSome = true := by
  intro n
  induction n with
  | zero =>
    intro s _ hfuel
    omega
  | succ n ih =>
    intro s hle hfuel
    rw [pathLoop]
    split
    · simp
    · rename_i hT
      cases hstep : pathStep w vel s with
      | crash => simp
      | brk => simp
      | cont s' =>
        dsimp only
        obtain ⟨seg, _, _, hle', _, _, _, _, _, _⟩ := pathStep_cont_facts hstep
        by_cases hfin : s'.time = PATH_TIME
        · obtain ⟨m, rfl⟩ : ∃ m, n = m + 1 := ⟨n - 1, by omega⟩
          rw [pathLoop_succ, if_pos hfin]
          simp
        · have hfin' : s'.time < PATH_TIME := lt_of_le_of_ne hle' hfin
          have hdec := stepMeasure_decrease hstep hfin'
          exact ih s' hle' (by omega)

theorem axisN_init_le (vel x : ℚ) : axisN vel x 0 ≤ ⌈PATH_TIME * |vel|⌉₊ := by
  unfold axisN
  split
  · exact Nat.zero_le _
  · rename_i hvel
    apply Nat.ceil_mono
    unfold axisGoal
    have hd := axisD_pos (jsSign_cases hvel) x
    nlinarith

theorem pathFuel_sufficient (vel position : Vec2) :
    stepMeasure vel (initState position) + 2 ≤ pathFuel vel := by
  unfold stepMeasure pathFuel initState
  dsimp only
  have h1 := axisN_init_le vel.x position.x
  have h2 := axisN_init_le vel.y position.y
  omega

/-- Claim C3 (amended): for every starting position, velocity, and world
the projection loop terminates within the computable fuel bound
`pathFuel`; the simulated clock never exceeds PATH_TIME and is
non-decreasing, and every iteration that continues from a clock strictly
below PATH_TIME advances the clock by a strictly positive amount and
appends exactly one segment of strictly positive duration (so no segment
with non-positive duration is ever appended).  An iteration that does not
continue either breaks on the wedged/zero-velocity condition (`brk`) or
aborts on a failed invariant (`crash`) — the abort case, reachable when
the walk starts strictly inside a blocked cell, is the correction to the
original claim (see the counterexample). -/
theorem claim_C3_termination (w : World) (vel position : Vec2) :
    (pathLoop w vel (pathFuel vel) (initState position)).isSome = true
    ∧ (∀ s s' : PLoopState, pathStep w vel s = StepOut.cont s' →
        s'.time ≤ PATH_TIME ∧ s.time ≤ s'.time
        ∧ (s.time < PATH_TIME →
            s.time < s'.time ∧ ∃ seg, s'.path = s.path ++ [seg] ∧ 0 < seg.t)) := by
  constructor
  · exact pathLoop_total (pathFuel vel) (initState position)
      (by norm_num [initState, PATH_TIME]) (pathFuel_sufficient vel position)
  · intro s s' hstep
    obtain ⟨seg, hpath, htime, hle', hge, hpos, _, _, _, _⟩ := pathStep_cont_facts hstep
    refine ⟨hle', by rw [htime]; linarith, ?_⟩
    intro hlt
    have hp := hpos hlt
    exact ⟨by rw [htime]; linarith, seg, hpath, hp⟩

/-- Witness for claim C3: the straight two-segment run, with the loop
finishing within the fuel bound and the first step advancing the clock
and appending one positive-duration segment. -/
theorem claim_C3_witness :
    (pathLoop openWorld ⟨4, 0⟩ (pathFuel ⟨4, 0⟩) (initState ⟨0, 0⟩)).isSome = true
    ∧ ((⟨1, 0, ⟨1, 0⟩, 1/4, [runSeg1]⟩ : PLoopState).time ≤ PATH_TIME
      ∧ (initState ⟨0, 0⟩).time ≤ (⟨1, 0, ⟨1, 0⟩, 1/4, [runSeg1]⟩ : PLoopState).time
      ∧ ((initState ⟨0, 0⟩).time < PATH_TIME →
          (initState ⟨0, 0⟩).time < (⟨1, 0, ⟨1, 0⟩, 1/4, [runSeg1]⟩ : PLoopState).time
          ∧ ∃ seg, (⟨1, 0, ⟨1, 0⟩, 1/4, [runSeg1]⟩ : PLoopState).path
              = (initState ⟨0, 0⟩).path ++ [seg] ∧ 0 < seg.t)) :=
  ⟨(claim_C3_termination openWorld ⟨4, 0⟩ ⟨0, 0⟩).1,
   (claim_C3_termination openWorld ⟨4, 0⟩ ⟨0, 0⟩).2 (initState ⟨0, 0⟩)
     ⟨1, 0, ⟨1, 0⟩, 1/4, [runSeg1]⟩ openWorld_step1⟩

/-- A world whose cell `(0,0)` is Stone and every other cell is Grass. -/
def interiorStoneWorld : World :=
  ⟨fun i j => if i = 0 ∧ j = 0 then some stoneCell else some grassCell⟩

/-- Counterexample to claim C3 as stated: starting strictly inside the
blocked cell `(0,0)` (position `(1/2, 1/2)`, both coordinates
non-integral), the first iteration neither advances the clock nor breaks
on a wedged/zero-velocity condition: it aborts on the strict-interior
`invariant(false)` (the `crash` outcome), so the claim's "each iteration
either advances time by a strictly positive amount or breaks due to a
wedged/zero-velocity condition" fails at this input. -/
theorem claim_C3_counterexample :
    pathStep interiorStoneWorld ⟨1, 0⟩ (initState ⟨1/2, 1/2⟩) = StepOut.crash
    ∧ StepOut.crash ≠ StepOut.brk
    ∧ usePathR 2 interiorStoneWorld ⟨1, 0⟩ ⟨1/2, 1/2⟩
        = some (initState ⟨1/2, 1/2⟩, Outcome.crashed)
    ∧ Outcome.crashed ≠ Outcome.blocked
    ∧ Outcome.crashed ≠ Outcome.completed := by
  have hocc : occupiedCell ⟨1, 0⟩ (1/2) (1/2) = (⟨0, 0⟩ : Vec2) := by
    norm_num [occupiedCell, classifyAxis, jsSign, Int.floor_eq_iff]
  have hres : resolveBlocked interiorStoneWorld ⟨1, 0⟩ 1 0 (1/2) (1/2) ⟨0, 0⟩
      = Resolved.crash := by
    norm_num [resolveBlocked, lookupCell, interiorStoneWorld, isCellBlocked,
      stoneCell, jsRem, jsTrunc, Int.fract, Int.floor_eq_iff]
  have hs1 : jsSign (1 : ℚ) = 1 := by norm_num [jsSign]
  have hs0 : jsSign (0 : ℚ) = 0 := by norm_num [jsSign]
  have hstep : pathStep interiorStoneWorld ⟨1, 0⟩ (initState ⟨1/2, 1/2⟩)
      = StepOut.crash := by
    simp only [pathStep, initState]
    norm_num only []
    rw [hocc]
    rw [if_neg (by norm_num [jsRem, jsTrunc])]
    simp only [hs1, hs0]
    rw [hres]
  refine ⟨hstep, by simp, ?_, by simp, by simp⟩
  have hvlen : Vec2.len ⟨1, 0⟩ = 0 ↔ False := by
    rw [len_eq_zero_iff]; norm_num
  unfold usePathR
  rw [if_neg (by rw [hvlen]; exact not_false)]
  unfold pathLoop
  rw [if_neg (by norm_num [initState, PATH_TIME]), hstep]

end Sim
